import Mathlib

/-!
local-memory: shallow embedding of the retrieval/storage core

This file embeds the core of the `local-memory` service (a personal
long-term memory store over SQLite: bag policies, memory records with
embedding vectors, and a recall ranking pipeline) and proves properties
of the embedded operations.

Modelling conventions:
* JavaScript strings are modelled as `List Char` (`Str`).  SQLite `TEXT`
  comparison and JS string comparison are both lexicographic on code
  units, modelled by `strLtB`.
* JS numbers are modelled as `ℚ` wherever the code only performs
  comparisons, `min`/`max` clamping and addition of decimal literals.
  `Math.sqrt` / `Math.pow` results are modelled in `ℝ`.
* `Date.parse` of a timestamp string is modelled as an `Option ℤ`
  (epoch milliseconds, `none` for an unparseable string).
* The SQLite database is an explicit `Db` state (lists of rows keyed by
  primary keys); a transactional write either returns a new state or an
  error leaving the caller's state untouched.
* The external embedding provider (`createEmbedding`) is modelled by
  passing the produced vector as an explicit argument: every claim below
  concerns behaviour after a successful embedding call.
* Optional JS fields are `Option`; fields whose JS type is
  `T | null | undefined` are `Option (Option T)` (outer layer: provided
  or omitted; inner layer: `null` or a value), so that the difference
  between `??` (collapses `null` and `undefined`) and an explicit
  `=== undefined` test is representable.
-/

namespace LocalMemory

/-- JS strings / SQLite TEXT values, as lists of characters. -/
abbrev Str := List Char

/-- Model of `String.prototype.trim()`: strip leading and trailing whitespace. -/
def jsTrim (s : Str) : Str :=
  ((s.dropWhile Char.isWhitespace).reverse.dropWhile Char.isWhitespace).reverse

/-- Model of `String.prototype.toLowerCase()` (ASCII-faithful). -/
def jsToLower (s : Str) : Str := s.map Char.toLower

/-- Lexicographic code-unit comparison: JS `<` on strings and SQLite
`TEXT` ordering. -/
def strLtB : Str → Str → Bool
  | [], [] => false
  | [], _ :: _ => true
  | _ :: _, [] => false
  | a :: as, b :: bs => if a < b then true else if b < a then false else strLtB as bs

/-- Model of `[...new Set(l)]`: deduplicate keeping the first occurrence of each
element, implemented structurally with a `seen` accumulator. -/
def dedupFirstAux [DecidableEq α] (seen : List α) : List α → List α
  | [] => []
  | t :: ts => if t ∈ seen then dedupFirstAux seen ts else t :: dedupFirstAux (t :: seen) ts

/-- Model of `[...new Set(l)]`. -/
def dedupFirst [DecidableEq α] (l : List α) : List α := dedupFirstAux [] l

/-- Model of `src/bags/service.ts` `KINDS`: the fixed memory-kind enumeration. -/
def KINDS : List Str :=
  ["summary".toList, "preference".toList, "constraint".toList,
   "decision".toList, "fact".toList, "note".toList]

/-- Model of `src/bags/service.ts` `PROTECTED_BAGS`. -/
def PROTECTED_BAGS : List Str :=
  ["session-summaries".toList, "coding-style".toList, "life-preferences".toList]

/-- Model of `src/memory/store.ts` `SUPPORTED_KINDS` (same enumeration, declared
separately in the source). -/
def SUPPORTED_KINDS : List Str :=
  ["summary".toList, "preference".toList, "constraint".toList,
   "decision".toList, "fact".toList, "note".toList]

/-- Model of `src/bags/service.ts` `normalizeKinds`: keep only members of the kind
enumeration, then deduplicate keeping first occurrences.  (The dynamic
`typeof kind === "string"` check always succeeds on `Str` inputs; a
non-array input yields `[]` and is modelled by callers passing `[]`.) -/
def normalizeKinds (input : List Str) : List Str :=
  dedupFirst (input.filter (fun k => KINDS.contains k))

/-- Model of `src/bags/service.ts` `clampNumber`: a missing (or non-numeric) value
falls back, a present value is clamped to `[lo, hi]`. -/
def clampNumber (value : Option ℚ) (fallback lo hi : ℚ) : ℚ :=
  match value with
  | none => fallback
  | some v => max lo (min hi v)

/-- A row of the `bags` table (`allowedKindsJson` is the parsed
`allowed_kinds_json` column). -/
structure BagRow where
  name : Str
  description : Option Str
  defaultTopK : ℚ
  recencyHalfLifeDays : ℚ
  importanceWeight : ℚ
  allowedKindsJson : List Str
  createdAt : Str
  updatedAt : Str
deriving DecidableEq, Repr

/-- Model of `BagPolicy` as returned to callers (kinds re-normalized on read). -/
structure BagPolicy where
  name : Str
  description : Option Str
  defaultTopK : ℚ
  recencyHalfLifeDays : ℚ
  importanceWeight : ℚ
  allowedKinds : List Str
  createdAt : Str
  updatedAt : Str
deriving DecidableEq, Repr

/-- Model of `src/bags/service.ts` `mapBagRow`. -/
def mapBagRow (r : BagRow) : BagPolicy :=
  { name := r.name
    description := r.description
    defaultTopK := r.defaultTopK
    recencyHalfLifeDays := r.recencyHalfLifeDays
    importanceWeight := r.importanceWeight
    allowedKinds := normalizeKinds r.allowedKindsJson
    createdAt := r.createdAt
    updatedAt := r.updatedAt }

/-- Model of `src/bags/service.ts` `getBagPolicy`: `SELECT ... FROM bags WHERE
name = ?` (the `name` column is the primary key). -/
def getBagPolicy (bags : List BagRow) (name : Str) : Option BagPolicy :=
  (bags.find? (fun r => decide (r.name = name))).map mapBagRow

/-- Input of `upsertBag`.  `description` is `string | null | undefined`
in the source, hence doubly optional here. -/
structure UpsertBagInput where
  name : Str
  description : Option (Option Str) := none
  defaultTopK : Option ℚ := none
  recencyHalfLifeDays : Option ℚ := none
  importanceWeight : Option ℚ := none
  allowedKinds : Option (List Str) := none

/-- The `next` record computed by `src/bags/service.ts` `upsertBag`.
`input.description ?? existing?.description ?? null` collapses an
explicitly provided `null` with an omitted field, which is
`(input.description.bind id) <|> (existing.bind description)` here. -/
def nextBagRow (bags : List BagRow) (input : UpsertBagInput) (now : Str) : BagRow :=
  let existing := getBagPolicy bags input.name
  { name := input.name
    description := (input.description.bind id) <|> (existing.bind (·.description))
    defaultTopK := clampNumber input.defaultTopK ((existing.map (·.defaultTopK)).getD 8) 1 100
    recencyHalfLifeDays :=
      clampNumber input.recencyHalfLifeDays
        ((existing.map (·.recencyHalfLifeDays)).getD 30) 1 3650
    importanceWeight :=
      clampNumber input.importanceWeight ((existing.map (·.importanceWeight)).getD 0.35) 0 2
    allowedKindsJson := normalizeKinds (input.allowedKinds.getD ((existing.map (·.allowedKinds)).getD []))
    createdAt := (existing.map (·.createdAt)).getD now
    updatedAt := now }

/-- Model of `src/bags/service.ts` `upsertBag`: `INSERT ... ON CONFLICT(name) DO
UPDATE` followed by a re-read of the row.  Returns the new `bags` table
and the re-read policy (the `getD` fallback is unreachable: the row just
written is always found, see `getBagPolicy_upsertBag`). -/
def upsertBag (bags : List BagRow) (input : UpsertBagInput) (now : Str) :
    List BagRow × BagPolicy :=
  let next := nextBagRow bags input now
  let bags' :=
    if bags.any (fun r => decide (r.name = input.name)) then
      bags.map (fun r => if r.name = input.name then next else r)
    else bags ++ [next]
  (bags', (getBagPolicy bags' input.name).getD (mapBagRow next))

/-- The three rows seeded by `src/db/migrate.ts` (inserted with
`ON CONFLICT(name) DO NOTHING` at migration timestamp `t`). -/
def seedBags (t : Str) : List BagRow :=
  [{ name := "session-summaries".toList
     description := some "Session-level takeaways and brief summaries.".toList
     defaultTopK := 8
     recencyHalfLifeDays := 14
     importanceWeight := 0.4
     allowedKindsJson := ["summary".toList, "decision".toList, "note".toList]
     createdAt := t, updatedAt := t },
   { name := "coding-style".toList
     description := some "User preferences for code style and implementation choices.".toList
     defaultTopK := 8
     recencyHalfLifeDays := 120
     importanceWeight := 0.45
     allowedKindsJson := ["preference".toList, "constraint".toList, "fact".toList, "note".toList]
     createdAt := t, updatedAt := t },
   { name := "life-preferences".toList
     description := some "Personal preferences and non-technical context.".toList
     defaultTopK := 6
     recencyHalfLifeDays := 180
     importanceWeight := 0.5
     allowedKindsJson := ["preference".toList, "fact".toList, "note".toList]
     createdAt := t, updatedAt := t }]

/-- A row of the `memories` table (`tags`, `source` are the parsed
`tags_json` / `source_json` columns; `source` is an opaque key/value
map). -/
structure MemoryRow where
  id : Str
  bag : Str
  kind : Str
  content : Str
  tags : List Str
  importance : ℚ
  source : List (Str × Str)
  createdAt : Str
  updatedAt : Str
  lastAccessedAt : Option Str
  expiresAt : Option Str
deriving DecidableEq, Repr

/-- Model of `src/memory/scoring.ts` `vectorNorm`: Euclidean norm. -/
noncomputable def vectorNorm (values : List ℚ) : ℝ :=
  Real.sqrt ((values.foldl (fun sum v => sum + v * v) 0 : ℚ) : ℝ)

/-- A row of the `memory_vectors` table. -/
structure VectorRow where
  memoryId : Str
  embedding : List ℚ
  embeddingModel : Str
  embeddingDim : ℕ
  embeddingNorm : ℝ
  createdAt : Str
  updatedAt : Str

/-- The SQLite database state. -/
structure Db where
  bags : List BagRow
  memories : List MemoryRow
  vectors : List VectorRow

/-- Model of `SELECT ... FROM memories WHERE id = ?` (also `parseRecord`, which is
the identity on this typed row model). -/
def getMemoryRecord (db : Db) (id : Str) : Option MemoryRow :=
  db.memories.find? (fun m => decide (m.id = id))

/-- Input of `storeMemory` (`src/types.ts` `StoreMemoryInput`). -/
structure StoreMemoryInput where
  bag : Str
  kind : Str
  content : Str
  tags : Option (List Str) := none
  importance : Option ℚ := none
  source : Option (List (Str × Str)) := none
  expiresAt : Option (Option Str) := none

/-- Model of `src/memory/store.ts` `sanitizeInput`: trim bag and content, trim
tags and drop empties, clamp importance to 1–5 with default 3, default
source to `{}` and expiresAt to `null`. -/
def sanitizeInput (input : StoreMemoryInput) : StoreMemoryInput :=
  { bag := jsTrim input.bag
    kind := input.kind
    content := jsTrim input.content
    tags := some (((input.tags.getD []).map jsTrim).filter (fun t => decide (t ≠ [])))
    importance := some (max 1 (min 5 (input.importance.getD 3)))
    source := some (input.source.getD [])
    expiresAt := some (input.expiresAt.bind id) }

/-- The configured embedding model name (`config.embeddingModel`
default). -/
def embeddingModelName : Str := "nomic-embed-text".toList

/-- Model of `src/memory/store.ts` `storeMemory`.  The embedding produced by the
external provider, the `nowIso()` timestamp and the generated UUID are
explicit arguments.  The `memories`/`memory_vectors` primary-key
constraints are modelled by the two freshness checks (a duplicate id
would abort the SQLite transaction).  On success returns the re-read
record and the new state; on error the caller's state is unchanged. -/
noncomputable def storeMemory (db : Db) (input : StoreMemoryInput) (embedding : List ℚ)
    (now id : Str) : Except Str (MemoryRow × Db) :=
  let sanitized := sanitizeInput input
  if sanitized.bag = [] then .error "bag is required".toList
  else if sanitized.content = [] then .error "content is required".toList
  else if ¬ SUPPORTED_KINDS.contains sanitized.kind then .error "unsupported kind".toList
  else
    match getBagPolicy db.bags sanitized.bag with
    | none => .error "unknown bag".toList
    | some bag =>
      if bag.allowedKinds ≠ [] ∧ ¬ bag.allowedKinds.contains sanitized.kind then
        .error "kind not allowed in bag".toList
      else if db.memories.any (fun m => decide (m.id = id)) then
        .error "UNIQUE constraint failed: memories.id".toList
      else if db.vectors.any (fun v => decide (v.memoryId = id)) then
        .error "UNIQUE constraint failed: memory_vectors.memory_id".toList
      else
        let row : MemoryRow :=
          { id := id
            bag := sanitized.bag
            kind := sanitized.kind
            content := sanitized.content
            tags := sanitized.tags.getD []
            importance := sanitized.importance.getD 3
            source := sanitized.source.getD []
            createdAt := now
            updatedAt := now
            lastAccessedAt := none
            expiresAt := sanitized.expiresAt.getD none }
        let vec : VectorRow :=
          { memoryId := id
            embedding := embedding
            embeddingModel := embeddingModelName
            embeddingDim := embedding.length
            embeddingNorm := vectorNorm embedding
            createdAt := now
            updatedAt := now }
        let db' : Db :=
          { bags := db.bags
            memories := db.memories ++ [row]
            vectors := db.vectors ++ [vec] }
        match getMemoryRecord db' id with
        | none => .error "failed to fetch stored memory".toList
        | some fetched => .ok (fetched, db')

/-- The record stored by `storeMemory`, if it succeeded. -/
noncomputable def storedRecord (db : Db) (input : StoreMemoryInput) (embedding : List ℚ)
    (now id : Str) : Option MemoryRow :=
  (storeMemory db input embedding now id).toOption.map (·.1)

/-- Input of `updateMemory`.  `expiresAt` is `string | null | undefined`
in the source (an explicit `null` overwrites, via the
`=== undefined` test), hence doubly optional. -/
structure UpdateMemoryInput where
  id : Str
  content : Option Str := none
  tags : Option (List Str) := none
  importance : Option ℚ := none
  source : Option (List (Str × Str)) := none
  expiresAt : Option (Option Str) := none

/-- The `UPDATE memories SET content = ?, tags_json = ?, importance = ?,
source_json = ?, updated_at = ?, expires_at = ? WHERE id = ?` row
update of `updateMemory`: the written values (`nextContent`,
`nextTags`, `nextImportance`, `nextSource`, `nextExpiresAt`) are
computed from the input and the previously selected `existing` row. -/
def applyMemoryUpdate (input : UpdateMemoryInput) (existing : MemoryRow) (now : Str)
    (m : MemoryRow) : MemoryRow :=
  { m with
    content := (input.content.map jsTrim).getD existing.content
    tags :=
      match input.tags with
      | some ts => (ts.map jsTrim).filter (fun t => decide (t ≠ []))
      | none => existing.tags
    importance := max 1 (min 5 (input.importance.getD existing.importance))
    source := input.source.getD existing.source
    updatedAt := now
    expiresAt :=
      match input.expiresAt with
      | none => existing.expiresAt
      | some v => v }

/-- The `UPDATE memory_vectors SET ... WHERE memory_id = ?` vector
update of `updateMemory` (only run when `content` was supplied). -/
noncomputable def applyVectorUpdate (newEmbedding : List ℚ) (now : Str)
    (v : VectorRow) : VectorRow :=
  { v with
    embedding := newEmbedding
    embeddingModel := embeddingModelName
    embeddingDim := newEmbedding.length
    embeddingNorm := vectorNorm newEmbedding
    updatedAt := now }

/-- Model of `src/memory/store.ts` `updateMemory`.  `newEmbedding` stands for the
embedding the external provider returns for the new content (only used
when `content` is supplied).  The `UPDATE memories SET ...` statement
writes only `content`, `tags_json`, `importance`, `source_json`,
`updated_at` and `expires_at`. -/
noncomputable def updateMemory (db : Db) (input : UpdateMemoryInput) (newEmbedding : List ℚ)
    (now : Str) : Except Str (MemoryRow × Db) :=
  match getMemoryRecord db input.id with
  | none => .error "memory not found".toList
  | some existing =>
    let db' : Db :=
      { bags := db.bags
        memories := db.memories.map (fun m =>
          if m.id = input.id then applyMemoryUpdate input existing now m else m)
        vectors :=
          if input.content.isSome then
            db.vectors.map (fun v =>
              if v.memoryId = input.id then applyVectorUpdate newEmbedding now v else v)
          else db.vectors }
    match getMemoryRecord db' input.id with
    | none => .error "memory not found after update".toList
    | some next => .ok (next, db')

/-- Input of `deleteBag`. -/
structure DeleteBagInput where
  name : Str
  force : Option Bool := none
  allowSystem : Option Bool := none

/-- Result of `deleteBag`. -/
structure DeleteBagResult where
  deleted : Bool
  name : Str
  deletedMemories : ℕ
deriving DecidableEq, Repr

/-- Model of `src/bags/service.ts` `deleteBag`.  The `memories` delete and the
`bags` delete run in one transaction; the `memory_vectors` rows of the
deleted memories go away through the schema's `ON DELETE CASCADE`
foreign key.  On error the caller's state is unchanged (transaction not
started or rolled back). -/
def deleteBag (db : Db) (input : DeleteBagInput) : Except Str (DeleteBagResult × Db) :=
  let name := jsTrim input.name
  if name = [] then .error "name is required".toList
  else
    match getBagPolicy db.bags name with
    | none => .ok ({ deleted := false, name := name, deletedMemories := 0 }, db)
    | some _ =>
      if PROTECTED_BAGS.contains name ∧ ¬ (input.allowSystem.getD false) then
        .error "bag is protected; set allowSystem=true to delete".toList
      else
        let memoryCount := db.memories.countP (fun m => decide (m.bag = name))
        if 0 < memoryCount ∧ ¬ (input.force.getD false) then
          .error "bag has memories; set force=true to delete".toList
        else
          let memories' :=
            if 0 < memoryCount then db.memories.filter (fun m => decide (m.bag ≠ name))
            else db.memories
          let vectors' :=
            if 0 < memoryCount then
              db.vectors.filter (fun v =>
                ¬ db.memories.any (fun m => decide (m.id = v.memoryId ∧ m.bag = name)))
            else db.vectors
          let bagChanges := db.bags.countP (fun r => decide (r.name = name))
          let bags' := db.bags.filter (fun r => decide (r.name ≠ name))
          .ok ({ deleted := 0 < bagChanges, name := name, deletedMemories := memoryCount },
               { bags := bags', memories := memories', vectors := vectors' })

/-- Model of `src/memory/scoring.ts` `recencyBoost`.  `createdAtMs` is the result
of `new Date(createdAtIso).getTime()` (`none` for `NaN`, i.e. an
unparseable string), `nowMs` is `Date.now()`, and `halfLifeDays` is the
policy's half-life.  `Math.pow(0.5, x)` is real exponentiation. -/
noncomputable def recencyBoost : Option ℤ → ℤ → ℝ → ℝ
  | none, _, _ => 0
  | some createdAt, nowMs, halfLifeDays =>
    if nowMs - createdAt ≤ 0 then 0.15
    else if halfLifeDays * 24 * 60 * 60 * 1000 ≤ 0 then 0
    else ((0.5 : ℝ) ^ (((nowMs - createdAt : ℤ) : ℝ) /
      (halfLifeDays * 24 * 60 * 60 * 1000))) * 0.2

/-- Model of `src/memory/scoring.ts` `importanceBoost`. -/
def importanceBoost (importance : ℚ) (policy : BagPolicy) : ℚ :=
  (max 1 (min 5 importance)) / 5 * policy.importanceWeight

/-- Model of `src/memory/scoring.ts` `tagBoost`.  The `Set` of lowercased memory
tags is membership in the lowercased list; the loop counts every entry
of `queryTags` (duplicates included) whose lowercase form is in that
set. -/
def tagBoost (queryTags memoryTags : List Str) : ℚ :=
  if queryTags = [] ∨ memoryTags = [] then 0
  else if queryTags.countP (fun t => (memoryTags.map jsToLower).contains (jsToLower t)) = 0
    then 0
  else min 0.2
    ((queryTags.countP (fun t => (memoryTags.map jsToLower).contains (jsToLower t)) : ℚ) * 0.06)

/-- The per-occurrence overlap count actually computed by `tagBoost`. -/
def overlapCount (queryTags memoryTags : List Str) : ℕ :=
  queryTags.countP (fun t => (memoryTags.map jsToLower).contains (jsToLower t))

/-- Modelled from the spec's words (for comparison with `tagBoost`):
"case-insensitive set overlap count times 0.06, capped at 0.2", treating
each list as a set so duplicates in either list count once. -/
def tagBoostSetSpec (queryTags memoryTags : List Str) : ℚ :=
  if queryTags = [] ∨ memoryTags = [] then 0
  else min 0.2
    ((((dedupFirst (queryTags.map jsToLower)).filter
        (fun t => (memoryTags.map jsToLower).contains t)).length : ℚ) * 0.06)

/-- Input of `recallMemories` (`src/types.ts` `RecallMemoryInput`). -/
structure RecallInput where
  query : Str
  bag : Option Str := none
  kinds : Option (List Str) := none
  tags : Option (List Str) := none
  topK : Option ℚ := none
  candidateLimit : Option ℚ := none

/-- A candidate row of the `memories ⋈ memory_vectors` join. -/
structure Candidate where
  memory : MemoryRow
  vector : VectorRow

/-- Model of `src/memory/recall.ts` `parseTags` applied to a list value: trim
each entry and drop empties. -/
def parseTagsList (l : List Str) : List Str :=
  (l.map jsTrim).filter (fun t => decide (t ≠ []))

/-- Model of `src/memory/recall.ts` `parseTags`: a missing (non-array) value
yields `[]`. -/
def parseTagsOpt (o : Option (List Str)) : List Str :=
  match o with
  | none => []
  | some l => parseTagsList l

/-- JS truthiness of `input.bag`: an omitted or empty-string bag adds no
filter (and resolves no policy). -/
def bagFilter (bag : Option Str) : Option Str :=
  bag.bind (fun b => if b = [] then none else some b)

/-- Truncation of a (non-negative) JS number used as `LIMIT` /
`Array.prototype.slice` bound. -/
def qToNat (q : ℚ) : ℕ := q.floor.toNat

/-- Model of `topK = Math.max(1, Math.min(100, input.topK ?? bagPolicy?.defaultTopK ?? 8))`. -/
def resolveTopK (db : Db) (input : RecallInput) : ℚ :=
  let bagPolicy := (bagFilter input.bag).bind (getBagPolicy db.bags)
  max 1 (min 100 (input.topK.getD ((bagPolicy.map (·.defaultTopK)).getD 8)))

/-- Model of `candidateLimit = Math.max(topK, Math.min(5000, input.candidateLimit ??
config.defaultCandidateLimit))`; the process-wide default is the
`defaultCandidateLimit` argument. -/
def resolveCandidateLimit (db : Db) (input : RecallInput) (defaultCandidateLimit : ℚ) : ℚ :=
  max (resolveTopK db input)
    (min 5000 (input.candidateLimit.getD defaultCandidateLimit))

/-- Insert `a` into `l` keeping `l`'s order, placing `a` before the first
element `b` with `lt b a` (descending insertion; the inserted element
goes after any tied elements already present). -/
def insertDesc (lt : α → α → Bool) (a : α) : List α → List α
  | [] => [a]
  | b :: l => if lt b a then a :: b :: l else b :: insertDesc lt a l

/-- Descending insertion sort by the comparator `lt`.  Note: built with
`foldr`, this reverses the relative order of elements the comparator
ties, whereas the source's JS `Array.prototype.sort` is stable; no
theorem below depends on the order of tied elements. -/
def sortDesc (lt : α → α → Bool) (l : List α) : List α := l.foldr (insertDesc lt) []

/-- Model of `src/memory/recall.ts` `buildFilterQuery` + `db.query(sql).all(...)`:
memories whose `expires_at` is `NULL` or after `now`, filtered by bag
(if truthy) and by kind membership (if a non-empty kind list is given),
inner-joined with their vector row, ordered by `created_at` descending
and truncated to the candidate limit. -/
def recallCandidates (db : Db) (input : RecallInput) (defaultCandidateLimit : ℚ)
    (now : Str) : List Candidate :=
  let keep (m : MemoryRow) : Bool :=
    (match m.expiresAt with
     | none => true
     | some e => strLtB now e) &&
    (match bagFilter input.bag with
     | none => true
     | some b => decide (m.bag = b)) &&
    (match input.kinds with
     | none => true
     | some ks => if ks = [] then true else ks.contains m.kind)
  let joined := (db.memories.filter keep).filterMap (fun m =>
    (db.vectors.find? (fun v => decide (v.memoryId = m.id))).map
      (fun v => { memory := m, vector := v }))
  (sortDesc (fun a b => strLtB a.memory.createdAt b.memory.createdAt) joined).take
    (qToNat (resolveCandidateLimit db input defaultCandidateLimit))

/-- The hard tag filter applied to candidate rows: some query tag matches
some (re-parsed) memory tag case-insensitively. -/
def hasTagOverlap (queryTags memoryTags : List Str) : Bool :=
  queryTags.any (fun qt => memoryTags.any (fun mt => decide (jsToLower mt = jsToLower qt)))

/-- Model of `src/memory/recall.ts` `rows.filter(...)`: rows survive when no query
tags were given or when they overlap the query tags. -/
def recallFiltered (db : Db) (input : RecallInput) (defaultCandidateLimit : ℚ)
    (now : Str) : List Candidate :=
  let queryTags := parseTagsOpt input.tags
  (recallCandidates db input defaultCandidateLimit now).filter (fun c =>
    queryTags = [] || hasTagOverlap queryTags (parseTagsList c.memory.tags))

/-- The additive score decomposition of one candidate. -/
structure ScoreBreakdown where
  similarity : ℚ
  recencyBoost : ℚ
  importanceBoost : ℚ
  tagBoost : ℚ
deriving DecidableEq, Repr

/-- One ranked recall result. -/
structure RecallResult where
  memory : MemoryRow
  score : ℚ
  scoreBreakdown : ScoreBreakdown
deriving DecidableEq, Repr

/-- Model of `src/memory/recall.ts`: score each surviving candidate, sort by score
descending (`.sort((a, b) => b.score - a.score)`) and truncate to
`topK`.  The per-candidate breakdown (cosine similarity against the
query embedding using the stored norm, recency/importance/tag boosts
under the candidate's bag policy or the hardcoded fallback policy) is
the `scoring` argument: it depends on the external query embedding,
wall-clock time and transcendental float math, and the pipeline is
parametric in it.  The final score is the sum of the four components. -/
def recallRanked (db : Db) (input : RecallInput) (scoring : Candidate → ScoreBreakdown)
    (defaultCandidateLimit : ℚ) (now : Str) : List RecallResult :=
  (sortDesc (fun a b => decide (a.score < b.score))
    ((recallFiltered db input defaultCandidateLimit now).map (fun c =>
      let b := scoring c
      { memory := c.memory
        score := b.similarity + b.recencyBoost + b.importanceBoost + b.tagBoost
        scoreBreakdown := b }))).take (qToNat (resolveTopK db input))

/-- Model of `UPDATE memories SET last_accessed_at = ? WHERE id = ?`. -/
def stampLastAccessed (db : Db) (id now : Str) : Db :=
  { db with memories := db.memories.map (fun m =>
      if m.id = id then { m with lastAccessedAt := some now } else m) }

/-- The statement loop `for (const item of ranked) markStmt.run(now,
item.memory.id)`.  `markOk` tells whether the UPDATE for a given id
succeeds; each UPDATE autocommits, and a failing one throws with the
earlier updates kept (there is no `try`/`catch` around the loop). -/
def markLoop (db : Db) (now : Str) (markOk : Str → Bool) :
    List RecallResult → Db × Option Str
  | [] => (db, none)
  | item :: rest =>
    if markOk item.memory.id then
      markLoop (stampLastAccessed db item.memory.id now) now markOk rest
    else (db, some "failed to update last_accessed_at".toList)

/-- Model of `src/memory/recall.ts` `recallMemories`.  Returns the final database
state together with the result or the propagated error. -/
def recallMemories (db : Db) (input : RecallInput) (scoring : Candidate → ScoreBreakdown)
    (defaultCandidateLimit : ℚ) (markOk : Str → Bool) (now : Str) :
    Db × Except Str (List RecallResult) :=
  if jsTrim input.query = [] then (db, .error "query is required".toList)
  else
    let ranked := recallRanked db input scoring defaultCandidateLimit now
    match markLoop db now markOk ranked with
    | (db', none) => (db', .ok ranked)
    | (db', some e) => (db', .error e)

/-- Whether an `Except` value is a success. -/
def exceptIsOk : Except ε α → Bool
  | .ok _ => true
  | .error _ => false

/-- The clamped numeric ranges of a stored bag row: `default_top_k` in
`[1, 100]`, `recency_half_life_days` in `[1, 3650]`,
`importance_weight` in `[0, 2]`. -/
def bagRowInRange (r : BagRow) : Prop :=
  1 ≤ r.defaultTopK ∧ r.defaultTopK ≤ 100 ∧
  1 ≤ r.recencyHalfLifeDays ∧ r.recencyHalfLifeDays ≤ 3650 ∧
  0 ≤ r.importanceWeight ∧ r.importanceWeight ≤ 2

/-- The same ranges on a returned `BagPolicy`. -/
def bagPolicyInRange (p : BagPolicy) : Prop :=
  1 ≤ p.defaultTopK ∧ p.defaultTopK ≤ 100 ∧
  1 ≤ p.recencyHalfLifeDays ∧ p.recencyHalfLifeDays ≤ 3650 ∧
  0 ≤ p.importanceWeight ∧ p.importanceWeight ≤ 2

/-! ## Theorems -/

/-- Lemma: `tagBoost` in closed form: the cap applied to the per-occurrence
overlap count (the empty-list and zero-overlap early returns coincide
with `min 0.2 0 = 0`). -/
theorem tagBoost_eq (a b : List Str) :
    tagBoost a b = if a = [] ∨ b = [] then 0
      else min 0.2 ((overlapCount a b : ℚ) * 0.06) := by
  unfold tagBoost overlapCount
  by_cases hab : a = [] ∨ b = []
  · rw [if_pos hab, if_pos hab]
  · rw [if_neg hab, if_neg hab]
    by_cases h : a.countP (fun t => (b.map jsToLower).contains (jsToLower t)) = 0
    · rw [if_pos h, h]
      norm_num
    · rw [if_neg h]

/-- Lemma: `tagBoost` is non-negative. -/
theorem tagBoost_nonneg (a b : List Str) : 0 ≤ tagBoost a b := by
  rw [tagBoost_eq]
  split
  · exact le_refl 0
  · exact le_min (by norm_num) (by positivity)

/-- If the two lists are non-empty, `tagBoost` is the capped overlap. -/
theorem tagBoost_of_ne (a b : List Str) (ha : a ≠ []) (hb : b ≠ []) :
    tagBoost a b = min 0.2 ((overlapCount a b : ℚ) * 0.06) := by
  rw [tagBoost_eq, if_neg (by simp [ha, hb])]

/-- C4 (amended): `tagBoost(a, b)` equals the case-insensitive overlap
count — counting each entry of the query list `a` per occurrence, while
duplicates in the memory list `b` count once — times `0.06`, capped at
`0.2`; it is `0` if either list is empty or the overlap count is `0`; it
is monotonically non-decreasing in the overlap count and never exceeds
`0.2`. -/
theorem tagBoost_characterization (a b : List Str) :
    tagBoost a b =
      (if a = [] ∨ b = [] then 0 else min 0.2 ((overlapCount a b : ℚ) * 0.06)) ∧
    tagBoost a b ≤ 0.2 ∧
    (overlapCount a b = 0 → tagBoost a b = 0) ∧
    ∀ (c d : List Str), overlapCount a b ≤ overlapCount c d → tagBoost a b ≤ tagBoost c d := by
  have hzero : ∀ (x y : List Str), overlapCount x y = 0 → tagBoost x y = 0 := by
    intro x y h
    rw [tagBoost_eq]
    split
    · rfl
    · rw [h]
      norm_num
  refine ⟨tagBoost_eq a b, ?_, hzero a b, ?_⟩
  · rw [tagBoost_eq]
    split
    · norm_num
    · exact min_le_left _ _
  · intro c d hcd
    by_cases hc : c = [] ∨ d = []
    · have h0 : tagBoost c d = 0 := by rw [tagBoost_eq, if_pos hc]
      have ha0 : overlapCount c d = 0 := by
        rcases hc with hc | hc <;> simp [overlapCount, hc]
      have : overlapCount a b = 0 := Nat.le_zero.mp (ha0 ▸ hcd)
      rw [hzero a b this, h0]
    · by_cases hab : a = [] ∨ b = []
      · have : tagBoost a b = 0 := by rw [tagBoost_eq, if_pos hab]
        rw [this]
        exact tagBoost_nonneg c d
      · push_neg at hc hab
        rw [tagBoost_of_ne a b hab.1 hab.2, tagBoost_of_ne c d hc.1 hc.2]
        refine min_le_min le_rfl ?_
        have : (overlapCount a b : ℚ) ≤ overlapCount c d := by exact_mod_cast hcd
        nlinarith

/-- Witness for C4 at a concrete input. -/
theorem tagBoost_characterization_witness :
    tagBoost ["x".toList] ["y".toList] ≤ tagBoost ["x".toList] ["x".toList] :=
  (tagBoost_characterization ["x".toList] ["y".toList]).2.2.2 ["x".toList] ["x".toList]
    (by decide)

/-- C4 (counterexample): the claim's set-overlap reading fails — a
duplicated query tag is counted per occurrence, so
`tagBoost(["a","a"], ["a"])` is `2 * 0.06 = 0.12`, not the set-overlap
value `1 * 0.06 = 0.06`. -/
theorem tagBoost_counts_query_duplicates :
    tagBoost ["a".toList, "a".toList] ["a".toList] = 0.12 ∧
    tagBoostSetSpec ["a".toList, "a".toList] ["a".toList] = 0.06 ∧
    (0.12 : ℚ) ≠ 0.06 := by
  refine ⟨?_, ?_, by norm_num⟩
  · have h : overlapCount ["a".toList, "a".toList] ["a".toList] = 2 := by decide
    rw [tagBoost_of_ne _ _ (by decide) (by decide), h]
    norm_num
  · have h : ((dedupFirst (["a".toList, "a".toList].map jsToLower)).filter
        (fun t => (["a".toList].map jsToLower).contains t)).length = 1 := by decide
    unfold tagBoostSetSpec
    rw [if_neg (by decide), h]
    norm_num

/-- C3 (amended): with `createdAtMs` the parsed timestamp (`none` when
unparseable) and `ageMs = nowMs - createdAtMs`: the boost is `0` for an
unparseable timestamp; `0.15` whenever `ageMs ≤ 0`, i.e. for a strictly
future timestamp *and also* for one exactly equal to now; `0` when
`0 < ageMs` and the half-life is non-positive; and otherwise the decay
`0.5 ^ (ageMs / halfLifeMs) * 0.2`, which never exceeds `0.2`. -/
theorem recencyBoost_branches (nowMs : ℤ) (halfLifeDays : ℝ) :
    recencyBoost none nowMs halfLifeDays = 0 ∧
    ∀ (createdAt : ℤ),
      (nowMs - createdAt ≤ 0 → recencyBoost (some createdAt) nowMs halfLifeDays = 0.15) ∧
      (0 < nowMs - createdAt → halfLifeDays ≤ 0 →
        recencyBoost (some createdAt) nowMs halfLifeDays = 0) ∧
      (0 < nowMs - createdAt → 0 < halfLifeDays →
        recencyBoost (some createdAt) nowMs halfLifeDays =
          (0.5 : ℝ) ^ (((nowMs - createdAt : ℤ) : ℝ) /
            (halfLifeDays * 24 * 60 * 60 * 1000)) * 0.2 ∧
        recencyBoost (some createdAt) nowMs halfLifeDays ≤ 0.2) := by
  refine ⟨rfl, fun createdAt => ⟨?_, ?_, ?_⟩⟩
  · intro h
    simp only [recencyBoost]
    rw [if_pos h]
  · intro hage hhl
    simp only [recencyBoost]
    rw [if_neg (not_le.mpr hage), if_pos (by nlinarith)]
  · intro hage hhl
    have hms : ¬ halfLifeDays * 24 * 60 * 60 * 1000 ≤ 0 := by nlinarith
    have heq : recencyBoost (some createdAt) nowMs halfLifeDays =
        (0.5 : ℝ) ^ (((nowMs - createdAt : ℤ) : ℝ) /
          (halfLifeDays * 24 * 60 * 60 * 1000)) * 0.2 := by
      simp only [recencyBoost]
      rw [if_neg (not_le.mpr hage), if_neg hms]
    refine ⟨heq, ?_⟩
    rw [heq]
    have hexp : (0 : ℝ) ≤ ((nowMs - createdAt : ℤ) : ℝ) /
        (halfLifeDays * 24 * 60 * 60 * 1000) := by
      apply div_nonneg
      · exact_mod_cast le_of_lt hage
      · nlinarith
    have hle : (0.5 : ℝ) ^ (((nowMs - createdAt : ℤ) : ℝ) /
        (halfLifeDays * 24 * 60 * 60 * 1000)) ≤ 1 :=
      Real.rpow_le_one (by norm_num) (by norm_num) hexp
    nlinarith

/-- Witness for C3 at concrete inputs: a non-positive half-life with
positive age gives `0`, and a future timestamp gives `0.15`. -/
theorem recencyBoost_branches_witness :
    recencyBoost (some 0) 1 (-1) = 0 ∧ recencyBoost (some 5) 3 30 = 0.15 :=
  ⟨((recencyBoost_branches 1 (-1)).2 0).2.1 (by norm_num) (by norm_num),
   ((recencyBoost_branches 3 30).2 5).1 (by norm_num)⟩

/-- C3 (counterexample): at age exactly zero (`createdAt = now`) the code
takes the `ageMs <= 0` branch and returns the flat `0.15` bonus, not the
decay value `0.5 ^ 0 * 0.2 = 0.2` the claim assigns to that case. -/
theorem recencyBoost_age_zero_flat_bonus :
    recencyBoost (some 0) 0 30 = 0.15 ∧
    (0.15 : ℝ) ≠ (0.5 : ℝ) ^ (((0 - 0 : ℤ) : ℝ) / (30 * 24 * 60 * 60 * 1000)) * 0.2 := by
  constructor
  · simp only [recencyBoost]
    rw [if_pos (by norm_num)]
  · rw [show (((0 - 0 : ℤ) : ℝ) / (30 * 24 * 60 * 60 * 1000)) = 0 by norm_num,
      Real.rpow_zero]
    norm_num

/-- Elements produced by `dedupFirstAux` come from the input list. -/
theorem mem_dedupFirstAux [DecidableEq α] (seen l : List α) :
    ∀ x ∈ dedupFirstAux seen l, x ∈ l := by
  induction l generalizing seen with
  | nil => simp [dedupFirstAux]
  | cons t ts ih =>
    intro x hx
    unfold dedupFirstAux at hx
    by_cases h : t ∈ seen
    · rw [if_pos h] at hx
      exact List.mem_cons_of_mem t (ih seen x hx)
    · rw [if_neg h] at hx
      rcases List.mem_cons.mp hx with rfl | hx
      · exact List.mem_cons_self _ _
      · exact List.mem_cons_of_mem t (ih (t :: seen) x hx)

/-- Lemma: `dedupFirstAux` yields a duplicate-free list avoiding `seen`. -/
theorem dedupFirstAux_nodup [DecidableEq α] (seen l : List α) :
    (dedupFirstAux seen l).Nodup ∧ ∀ x ∈ dedupFirstAux seen l, x ∉ seen := by
  induction l generalizing seen with
  | nil => simp [dedupFirstAux]
  | cons t ts ih =>
    unfold dedupFirstAux
    by_cases h : t ∈ seen
    · rw [if_pos h]
      exact ih seen
    · rw [if_neg h]
      obtain ⟨hnd, hnotin⟩ := ih (t :: seen)
      refine ⟨List.nodup_cons.mpr ⟨fun hmem => (hnotin t hmem) (List.mem_cons_self _ _), hnd⟩,
        ?_⟩
      intro x hx
      rcases List.mem_cons.mp hx with rfl | hx
      · exact h
      · exact fun hxseen => hnotin x hx (List.mem_cons_of_mem _ hxseen)

/-- Lemma: `dedupFirst` yields a duplicate-free list. -/
theorem dedupFirst_nodup [DecidableEq α] (l : List α) : (dedupFirst l).Nodup :=
  (dedupFirstAux_nodup [] l).1

/-- Elements of `dedupFirst l` come from `l`. -/
theorem mem_dedupFirst [DecidableEq α] (l : List α) : ∀ x ∈ dedupFirst l, x ∈ l :=
  mem_dedupFirstAux [] l

/-- Lemma: `dedupFirstAux` is the identity on duplicate-free lists disjoint from
`seen`. -/
theorem dedupFirstAux_eq_self [DecidableEq α] (seen l : List α) (hnd : l.Nodup)
    (hdisj : ∀ x ∈ l, x ∉ seen) : dedupFirstAux seen l = l := by
  induction l generalizing seen with
  | nil => rfl
  | cons t ts ih =>
    unfold dedupFirstAux
    rw [if_neg (hdisj t (List.mem_cons_self _ _))]
    congr 1
    refine ih (t :: seen) (List.nodup_cons.mp hnd).2 ?_
    intro x hx hmem
    rcases List.mem_cons.mp hmem with rfl | hmem
    · exact (List.nodup_cons.mp hnd).1 hx
    · exact hdisj x (List.mem_cons_of_mem _ hx) hmem

/-- Lemma: `dedupFirst` is the identity on duplicate-free lists. -/
theorem dedupFirst_eq_self [DecidableEq α] (l : List α) (h : l.Nodup) : dedupFirst l = l :=
  dedupFirstAux_eq_self [] l h (by simp)

/-- Lemma: `normalizeKinds` never produces duplicates. -/
theorem normalizeKinds_nodup (l : List Str) : (normalizeKinds l).Nodup :=
  dedupFirst_nodup _

/-- Every kind kept by `normalizeKinds` is a valid kind from the input. -/
theorem mem_normalizeKinds (l : List Str) :
    ∀ k ∈ normalizeKinds l, k ∈ KINDS ∧ k ∈ l := by
  intro k hk
  have hf := mem_dedupFirst _ k hk
  have := List.mem_filter.mp hf
  refine ⟨?_, this.1⟩
  have hc := this.2
  simpa using hc

/-- Lemma: `normalizeKinds` is idempotent. -/
theorem normalizeKinds_idem (l : List Str) :
    normalizeKinds (normalizeKinds l) = normalizeKinds l := by
  have hfilter : (normalizeKinds l).filter (fun k => KINDS.contains k) = normalizeKinds l := by
    refine List.filter_eq_self.mpr ?_
    intro k hk
    simpa using (mem_normalizeKinds l k hk).1
  show dedupFirst ((normalizeKinds l).filter (fun k => KINDS.contains k)) = normalizeKinds l
  rw [hfilter]
  exact dedupFirst_eq_self _ (normalizeKinds_nodup l)

/-- Replacing every element satisfying `q` by a fixed element `next`
satisfying `q` makes `find?` return `next` exactly when some element
satisfied `q`. -/
theorem find?_replace (l : List α) (q : α → Prop) [DecidablePred q] (next : α) (h : q next) :
    (l.map fun r => if q r then next else r).find? (fun r => decide (q r)) =
      if l.any (fun r => decide (q r)) then some next else none := by
  induction l with
  | nil => rfl
  | cons a l ih =>
    simp only [List.map_cons, List.find?_cons, List.any_cons]
    by_cases ha : q a
    · rw [if_pos ha]
      simp [h, ha]
    · rw [if_neg ha]
      simp [ha, ih]

/-- The row re-read by `upsertBag` after its `INSERT ... ON CONFLICT` is
always the row it just wrote. -/
theorem getBagPolicy_upsertBag (bags : List BagRow) (input : UpsertBagInput) (now : Str) :
    getBagPolicy (upsertBag bags input now).1 input.name =
      some (mapBagRow (nextBagRow bags input now)) := by
  unfold upsertBag getBagPolicy
  have hqnext : (nextBagRow bags input now).name = input.name := rfl
  by_cases hany : bags.any (fun r => decide (r.name = input.name)) = true
  · simp only [hany, if_true]
    rw [find?_replace bags (fun r => r.name = input.name) (nextBagRow bags input now) hqnext,
      if_pos hany]
    rfl
  · have hany' : bags.any (fun r => decide (r.name = input.name)) = false := by
      simpa using hany
    simp only [hany', Bool.false_eq_true, if_false]
    rw [List.find?_append]
    have hnone : bags.find? (fun r => decide (r.name = input.name)) = none := by
      refine List.find?_eq_none.mpr ?_
      intro x hx
      simp only [Bool.not_eq_true]
      by_contra hcon
      exact hany (List.any_eq_true.mpr ⟨x, hx, by simpa using hcon⟩)
    rw [hnone]
    simp [hqnext]

/-- The policy returned by `upsertBag` is the mapped row it wrote. -/
theorem upsertBag_policy (bags : List BagRow) (input : UpsertBagInput) (now : Str) :
    (upsertBag bags input now).2 = mapBagRow (nextBagRow bags input now) := by
  have hrfl : (upsertBag bags input now).2 =
      (getBagPolicy (upsertBag bags input now).1 input.name).getD
        (mapBagRow (nextBagRow bags input now)) := rfl
  rw [hrfl, getBagPolicy_upsertBag]
  rfl

/-- C10 (confirmed): the `allowedKinds` persisted and returned by an
upsert contain only members of the fixed kind enumeration, without
duplicates; invalid entries are silently dropped (the operation still
returns a policy) — when a kind list is provided, the stored list is
exactly `normalizeKinds` of it. -/
theorem upsertBag_allowedKinds_valid (bags : List BagRow) (input : UpsertBagInput) (now : Str) :
    (upsertBag bags input now).2.allowedKinds.Nodup ∧
    (∀ k ∈ (upsertBag bags input now).2.allowedKinds, k ∈ KINDS) ∧
    (∀ ks, input.allowedKinds = some ks →
      (upsertBag bags input now).2.allowedKinds = normalizeKinds ks) := by
  rw [upsertBag_policy]
  refine ⟨normalizeKinds_nodup _, fun k hk => (mem_normalizeKinds _ k hk).1, ?_⟩
  intro ks hks
  show normalizeKinds ((nextBagRow bags input now).allowedKindsJson) = normalizeKinds ks
  have : (nextBagRow bags input now).allowedKindsJson =
      normalizeKinds (input.allowedKinds.getD
        (((getBagPolicy bags input.name).map (·.allowedKinds)).getD [])) := rfl
  rw [this, hks]
  show normalizeKinds (normalizeKinds ks) = normalizeKinds ks
  exact normalizeKinds_idem ks

/-- Witness for C10: an upsert given an invalid kind and a duplicate
stores just the one valid kind. -/
theorem upsertBag_allowedKinds_valid_witness :
    (upsertBag []
      ⟨"b".toList, none, none, none, none,
        some ["note".toList, "bogus".toList, "note".toList]⟩
      "t".toList).2.allowedKinds =
      normalizeKinds ["note".toList, "bogus".toList, "note".toList] ∧
    normalizeKinds ["note".toList, "bogus".toList, "note".toList] = ["note".toList] :=
  ⟨(upsertBag_allowedKinds_valid [] _ "t".toList).2.2 _ rfl, by decide⟩

/-- Lemma: `clampNumber` stays within `[lo, hi]` whenever the fallback does. -/
theorem clampNumber_bounds (v : Option ℚ) (fb lo hi : ℚ) (hlohi : lo ≤ hi)
    (h1 : lo ≤ fb) (h2 : fb ≤ hi) :
    lo ≤ clampNumber v fb lo hi ∧ clampNumber v fb lo hi ≤ hi := by
  cases v with
  | none => exact ⟨h1, h2⟩
  | some v => exact ⟨le_max_left _ _, max_le hlohi (min_le_left _ _)⟩

/-- A policy returned by `getBagPolicy` is the mapped form of a stored
row. -/
theorem getBagPolicy_mem (bags : List BagRow) (name : Str) (p : BagPolicy)
    (h : getBagPolicy bags name = some p) : ∃ r ∈ bags, p = mapBagRow r := by
  unfold getBagPolicy at h
  cases hf : bags.find? (fun r => decide (r.name = name)) with
  | none => rw [hf] at h; cases h
  | some r =>
    rw [hf] at h
    refine ⟨r, List.mem_of_find?_eq_some hf, ?_⟩
    simpa using h.symm

/-- The row written by an upsert is in range whenever the stored rows
are (a provided value is clamped; an absent one falls back to the
existing in-range value or an in-range default). -/
theorem nextBagRow_inRange (bags : List BagRow) (input : UpsertBagInput) (now : Str)
    (hbags : ∀ r ∈ bags, bagRowInRange r) : bagRowInRange (nextBagRow bags input now) := by
  have hfb : ∀ p, getBagPolicy bags input.name = some p →
      (1 ≤ p.defaultTopK ∧ p.defaultTopK ≤ 100) ∧
      (1 ≤ p.recencyHalfLifeDays ∧ p.recencyHalfLifeDays ≤ 3650) ∧
      (0 ≤ p.importanceWeight ∧ p.importanceWeight ≤ 2) := by
    intro p hp
    obtain ⟨r, hr, rfl⟩ := getBagPolicy_mem bags input.name p hp
    obtain ⟨a1, a2, a3, a4, a5, a6⟩ := hbags r hr
    exact ⟨⟨a1, a2⟩, ⟨a3, a4⟩, ⟨a5, a6⟩⟩
  unfold nextBagRow bagRowInRange
  cases hg : getBagPolicy bags input.name with
  | none =>
    simp only [hg, Option.map_none', Option.getD_none]
    refine ⟨(clampNumber_bounds _ 8 1 100 (by norm_num) (by norm_num) (by norm_num)).1,
      (clampNumber_bounds _ 8 1 100 (by norm_num) (by norm_num) (by norm_num)).2,
      (clampNumber_bounds _ 30 1 3650 (by norm_num) (by norm_num) (by norm_num)).1,
      (clampNumber_bounds _ 30 1 3650 (by norm_num) (by norm_num) (by norm_num)).2,
      (clampNumber_bounds _ 0.35 0 2 (by norm_num) (by norm_num) (by norm_num)).1,
      (clampNumber_bounds _ 0.35 0 2 (by norm_num) (by norm_num) (by norm_num)).2⟩
  | some p =>
    obtain ⟨⟨b1, b2⟩, ⟨b3, b4⟩, ⟨b5, b6⟩⟩ := hfb p hg
    simp only [hg, Option.map_some', Option.getD_some]
    refine ⟨(clampNumber_bounds _ _ 1 100 (by norm_num) b1 b2).1,
      (clampNumber_bounds _ _ 1 100 (by norm_num) b1 b2).2,
      (clampNumber_bounds _ _ 1 3650 (by norm_num) b3 b4).1,
      (clampNumber_bounds _ _ 1 3650 (by norm_num) b3 b4).2,
      (clampNumber_bounds _ _ 0 2 (by norm_num) b5 b6).1,
      (clampNumber_bounds _ _ 0 2 (by norm_num) b5 b6).2⟩

/-- C8 (confirmed): the clamped-range invariant on stored bag policies
holds for the seeded rows, is established and preserved by every
`upsertBag` (both over the whole table and for the returned policy), and
is preserved by every successful `deleteBag`. -/
theorem bagPolicy_clamp_invariant :
    (∀ t, ∀ r ∈ seedBags t, bagRowInRange r) ∧
    (∀ bags input now, (∀ r ∈ bags, bagRowInRange r) →
      (∀ r ∈ (upsertBag bags input now).1, bagRowInRange r) ∧
      bagPolicyInRange (upsertBag bags input now).2) ∧
    (∀ db input res db', deleteBag db input = .ok (res, db') →
      (∀ r ∈ db.bags, bagRowInRange r) → ∀ r ∈ db'.bags, bagRowInRange r) := by
  refine ⟨?_, ?_, ?_⟩
  · intro t r hr
    simp only [seedBags, List.mem_cons, List.not_mem_nil, or_false] at hr
    rcases hr with rfl | rfl | rfl <;>
      exact ⟨by norm_num, by norm_num, by norm_num, by norm_num, by norm_num, by norm_num⟩
  · intro bags input now hbags
    have hnext := nextBagRow_inRange bags input now hbags
    constructor
    · intro r hr
      have hmem : r ∈ (if bags.any (fun x => decide (x.name = input.name)) then
          bags.map (fun x => if x.name = input.name then nextBagRow bags input now else x)
          else bags ++ [nextBagRow bags input now]) := hr
      split at hmem
      · obtain ⟨x, hx, rfl⟩ := List.mem_map.mp hmem
        split
        · exact hnext
        · exact hbags x hx
      · rcases List.mem_append.mp hmem with hx | hx
        · exact hbags r hx
        · rw [List.mem_singleton.mp hx]
          exact hnext
    · rw [upsertBag_policy]
      exact hnext
  · intro db input res db' h hbags
    simp only [deleteBag] at h
    split at h
    · cases h
    · split at h
      · simp only [Except.ok.injEq, Prod.mk.injEq] at h
        obtain ⟨-, h2⟩ := h
        subst h2
        exact hbags
      · split at h
        · cases h
        · split at h
          · cases h
          · simp only [Except.ok.injEq, Prod.mk.injEq] at h
            obtain ⟨-, h2⟩ := h
            subst h2
            intro r hr
            exact hbags r (List.mem_filter.mp hr).1

/-- Witness for C8: upserting with an out-of-range `defaultTopK` into an
empty store leaves the returned policy in range. -/
theorem bagPolicy_clamp_invariant_witness :
    bagPolicyInRange (upsertBag [] ⟨"b".toList, none, some 1000, none, none, none⟩
      "t".toList).2 :=
  (bagPolicy_clamp_invariant.2.1 [] ⟨"b".toList, none, some 1000, none, none, none⟩
    "t".toList (by simp)).2

/-- Replacing every element satisfying `q` by a fixed element satisfying
`q` preserves the number of elements satisfying `q`. -/
theorem countP_replace (l : List α) (q : α → Prop) [DecidablePred q] (next : α) (h : q next) :
    (l.map fun r => if q r then next else r).countP (fun r => decide (q r)) =
      l.countP (fun r => decide (q r)) := by
  induction l with
  | nil => rfl
  | cons a l ih =>
    simp only [List.map_cons, List.countP_cons]
    by_cases ha : q a
    · rw [if_pos ha]
      simp [h, ha, ih]
    · rw [if_neg ha]
      simp [ha, ih]

/-- Lemma: `getBagPolicy` misses exactly when no row has the name. -/
theorem getBagPolicy_none_iff (bags : List BagRow) (name : Str) :
    getBagPolicy bags name = none ↔ ∀ r ∈ bags, r.name ≠ name := by
  unfold getBagPolicy
  rw [Option.map_eq_none']
  rw [List.find?_eq_none]
  constructor
  · intro h r hr
    have := h r hr
    simpa using this
  · intro h r hr
    simpa using h r hr

/-- When the name is absent, `upsertBag` appends the new row. -/
theorem upsertBag_bags_of_absent (bags : List BagRow) (input : UpsertBagInput) (now : Str)
    (h : getBagPolicy bags input.name = none) :
    (upsertBag bags input now).1 = bags ++ [nextBagRow bags input now] := by
  have hany : bags.any (fun r => decide (r.name = input.name)) = false := by
    rw [List.any_eq_false]
    intro r hr
    simpa using (getBagPolicy_none_iff bags input.name).mp h r hr
  show (if bags.any (fun r => decide (r.name = input.name)) then
      bags.map (fun r => if r.name = input.name then nextBagRow bags input now else r)
      else bags ++ [nextBagRow bags input now]) = _
  rw [hany]
  simp

/-- When the name is present, `upsertBag` replaces the matching rows. -/
theorem upsertBag_bags_of_present (bags : List BagRow) (input : UpsertBagInput) (now : Str)
    (h : bags.any (fun r => decide (r.name = input.name)) = true) :
    (upsertBag bags input now).1 =
      bags.map (fun r => if r.name = input.name then nextBagRow bags input now else r) := by
  show (if bags.any (fun r => decide (r.name = input.name)) then
      bags.map (fun r => if r.name = input.name then nextBagRow bags input now else r)
      else bags ++ [nextBagRow bags input now]) = _
  rw [h]
  simp

/-- C5 (amended): `upsertBag` creates with the documented defaults when
the name is absent; when it exists, every provided field overwrites the
stored value after clamping/normalization — except that an explicitly
provided `null` description is collapsed with an omitted one by `??` and
retains the existing description — and every omitted field retains the
existing value; two upserts of the same (initially absent) name leave
exactly one row of that name, whose `defaultTopK` is the second call's
value clamped to 1–100 and whose `createdAt` is the first call's
timestamp. -/
theorem upsertBag_merge_semantics :
    (∀ bags input now, getBagPolicy bags input.name = none →
      (upsertBag bags input now).2.name = input.name ∧
      (upsertBag bags input now).2.description = input.description.bind id ∧
      (upsertBag bags input now).2.defaultTopK = clampNumber input.defaultTopK 8 1 100 ∧
      (upsertBag bags input now).2.recencyHalfLifeDays =
        clampNumber input.recencyHalfLifeDays 30 1 3650 ∧
      (upsertBag bags input now).2.importanceWeight =
        clampNumber input.importanceWeight 0.35 0 2 ∧
      (upsertBag bags input now).2.allowedKinds = normalizeKinds (input.allowedKinds.getD []) ∧
      (upsertBag bags input now).2.createdAt = now ∧
      (upsertBag bags input now).2.updatedAt = now) ∧
    (∀ bags input now e, getBagPolicy bags input.name = some e →
      (upsertBag bags input now).2.name = input.name ∧
      (upsertBag bags input now).2.description = ((input.description.bind id) <|> e.description) ∧
      (upsertBag bags input now).2.defaultTopK =
        clampNumber input.defaultTopK e.defaultTopK 1 100 ∧
      (upsertBag bags input now).2.recencyHalfLifeDays =
        clampNumber input.recencyHalfLifeDays e.recencyHalfLifeDays 1 3650 ∧
      (upsertBag bags input now).2.importanceWeight =
        clampNumber input.importanceWeight e.importanceWeight 0 2 ∧
      (upsertBag bags input now).2.allowedKinds =
        normalizeKinds (input.allowedKinds.getD e.allowedKinds) ∧
      (upsertBag bags input now).2.createdAt = e.createdAt ∧
      (upsertBag bags input now).2.updatedAt = now) ∧
    (∀ bags i1 i2 now1 now2 v2,
      getBagPolicy bags i1.name = none →
      i2.name = i1.name →
      i2.defaultTopK = some v2 →
      ((upsertBag (upsertBag bags i1 now1).1 i2 now2).1.countP
          (fun r => decide (r.name = i1.name)) = 1 ∧
        (upsertBag (upsertBag bags i1 now1).1 i2 now2).2.defaultTopK = max 1 (min 100 v2) ∧
        (upsertBag (upsertBag bags i1 now1).1 i2 now2).2.createdAt = now1)) := by
  have hcreate : ∀ bags input now, getBagPolicy bags input.name = none →
      (upsertBag bags input now).2.name = input.name ∧
      (upsertBag bags input now).2.description = input.description.bind id ∧
      (upsertBag bags input now).2.defaultTopK = clampNumber input.defaultTopK 8 1 100 ∧
      (upsertBag bags input now).2.recencyHalfLifeDays =
        clampNumber input.recencyHalfLifeDays 30 1 3650 ∧
      (upsertBag bags input now).2.importanceWeight =
        clampNumber input.importanceWeight 0.35 0 2 ∧
      (upsertBag bags input now).2.allowedKinds = normalizeKinds (input.allowedKinds.getD []) ∧
      (upsertBag bags input now).2.createdAt = now ∧
      (upsertBag bags input now).2.updatedAt = now := by
    intro bags input now h
    rw [upsertBag_policy]
    unfold nextBagRow mapBagRow
    rw [h]
    exact ⟨rfl, by simp, rfl, rfl, rfl, by simp [normalizeKinds_idem], rfl, rfl⟩
  have hmerge : ∀ bags input now e, getBagPolicy bags input.name = some e →
      (upsertBag bags input now).2.name = input.name ∧
      (upsertBag bags input now).2.description = ((input.description.bind id) <|> e.description) ∧
      (upsertBag bags input now).2.defaultTopK =
        clampNumber input.defaultTopK e.defaultTopK 1 100 ∧
      (upsertBag bags input now).2.recencyHalfLifeDays =
        clampNumber input.recencyHalfLifeDays e.recencyHalfLifeDays 1 3650 ∧
      (upsertBag bags input now).2.importanceWeight =
        clampNumber input.importanceWeight e.importanceWeight 0 2 ∧
      (upsertBag bags input now).2.allowedKinds =
        normalizeKinds (input.allowedKinds.getD e.allowedKinds) ∧
      (upsertBag bags input now).2.createdAt = e.createdAt ∧
      (upsertBag bags input now).2.updatedAt = now := by
    intro bags input now e h
    rw [upsertBag_policy]
    unfold nextBagRow mapBagRow
    rw [h]
    exact ⟨rfl, by simp, rfl, rfl, rfl, by simp [normalizeKinds_idem], by simp, rfl⟩
  refine ⟨hcreate, hmerge, ?_⟩
  intro bags i1 i2 now1 now2 v2 h1 hname htop
  have hbags1 : (upsertBag bags i1 now1).1 = bags ++ [nextBagRow bags i1 now1] :=
    upsertBag_bags_of_absent bags i1 now1 h1
  have hfound : getBagPolicy (upsertBag bags i1 now1).1 i2.name =
      some (mapBagRow (nextBagRow bags i1 now1)) := by
    rw [hname]
    exact getBagPolicy_upsertBag bags i1 now1
  obtain ⟨-, -, htopK, -, -, -, hcreated, -⟩ :=
    hmerge (upsertBag bags i1 now1).1 i2 now2 (mapBagRow (nextBagRow bags i1 now1)) hfound
  refine ⟨?_, ?_, ?_⟩
  · have hany2 : ((upsertBag bags i1 now1).1).any (fun r => decide (r.name = i2.name)) = true := by
      rw [hbags1, hname, List.any_append]
      simp only [List.any_cons, List.any_nil, Bool.or_false]
      have : (nextBagRow bags i1 now1).name = i1.name := rfl
      simp [this]
    rw [upsertBag_bags_of_present _ i2 now2 hany2, hname]
    have hrepl := countP_replace ((upsertBag bags i1 now1).1)
      (fun r => r.name = i1.name) (nextBagRow ((upsertBag bags i1 now1).1) i2 now2) hname
    simp only at hrepl
    rw [hrepl]
    rw [hbags1, List.countP_append]
    have hzero : bags.countP (fun r => decide (r.name = i1.name)) = 0 := by
      rw [List.countP_eq_zero]
      intro r hr
      simpa using (getBagPolicy_none_iff bags i1.name).mp h1 r hr
    have hone : ([nextBagRow bags i1 now1]).countP (fun r => decide (r.name = i1.name)) = 1 := by
      have : (nextBagRow bags i1 now1).name = i1.name := rfl
      simp [List.countP_cons, this]
    rw [hzero, hone]
  · rw [htopK, htop]
    rfl
  · rw [hcreated]
    show ((getBagPolicy bags i1.name).map (fun p => p.createdAt)).getD now1 = now1
    rw [h1]
    rfl

/-- Witness for C5 at a concrete double upsert. -/
theorem upsertBag_merge_semantics_witness :
    (upsertBag (upsertBag [] ⟨"b".toList, none, some 3, none, none, none⟩ "t1".toList).1
        ⟨"b".toList, none, some 4, none, none, none⟩ "t2".toList).1.countP
      (fun r => decide (r.name = "b".toList)) = 1 ∧
    (upsertBag (upsertBag [] ⟨"b".toList, none, some 3, none, none, none⟩ "t1".toList).1
        ⟨"b".toList, none, some 4, none, none, none⟩ "t2".toList).2.defaultTopK =
      max 1 (min 100 4) ∧
    (upsertBag (upsertBag [] ⟨"b".toList, none, some 3, none, none, none⟩ "t1".toList).1
        ⟨"b".toList, none, some 4, none, none, none⟩ "t2".toList).2.createdAt = "t1".toList :=
  upsertBag_merge_semantics.2.2 [] ⟨"b".toList, none, some 3, none, none, none⟩
    ⟨"b".toList, none, some 4, none, none, none⟩ "t1".toList "t2".toList 4 rfl rfl rfl

/-- C5 (counterexample): an explicitly provided `null` description does
not overwrite: after storing description `d`, an upsert that passes
`description = null` leaves `d` in place (the `??` chain folds `null`
into "omitted").  Secondarily, provided numeric fields are stored
clamped, not verbatim. -/
theorem upsertBag_provided_null_description_retained :
    (upsertBag
        (upsertBag [] ⟨"b".toList, some (some "d".toList), none, none, none, none⟩
          "t1".toList).1
        ⟨"b".toList, some none, none, none, none, none⟩ "t2".toList).2.description =
      some "d".toList ∧
    some "d".toList ≠ (none : Option Str) ∧
    (upsertBag [] ⟨"c".toList, none, some 1000, none, none, none⟩ "t".toList).2.defaultTopK =
      100 ∧
    (100 : ℚ) ≠ 1000 := by
  refine ⟨?_, by simp, ?_, by norm_num⟩
  · rw [upsertBag_policy]
    unfold nextBagRow
    rw [getBagPolicy_upsertBag [] ⟨"b".toList, some (some "d".toList), none, none, none, none⟩
      "t1".toList]
    rfl
  · rw [upsertBag_policy]
    show clampNumber (some 1000) 8 1 100 = 100
    unfold clampNumber
    norm_num

/-- Updating in place every element satisfying `q` (with an update that
preserves `q`) maps `find?` through the update. -/
theorem find?_modify (l : List α) (q : α → Prop) [DecidablePred q] (g : α → α)
    (hg : ∀ a, q a → q (g a)) :
    (l.map fun a => if q a then g a else a).find? (fun a => decide (q a)) =
      (l.find? (fun a => decide (q a))).map g := by
  induction l with
  | nil => rfl
  | cons a l ih =>
    simp only [List.map_cons, List.find?_cons]
    by_cases ha : q a
    · rw [if_pos ha]
      simp [ha, hg a ha]
    · rw [if_neg ha]
      simp [ha, ih]

/-- A `find?` hit is impossible when `any` is false. -/
theorem find?_eq_none_of_any_false (l : List α) (p : α → Bool) (h : l.any p = false) :
    l.find? p = none := by
  rw [List.find?_eq_none]
  intro x hx
  rw [List.any_eq_false] at h
  simp [h x hx]

/-- C1 (amended): a successful `storeMemory` followed by fetching the
returned id yields a record whose `content` is the trimmed input
content, whose `importance` is the input importance clamped to 1–5
(default 3), whose `kind` equals the input kind, whose `bag` is the
*trimmed* input bag, and whose `tags` are the input tags trimmed with
empties dropped — duplicates are *not* removed. -/
theorem storeMemory_roundtrip_sanitized (db : Db) (input : StoreMemoryInput)
    (embedding : List ℚ) (now newId : Str)
    (hbag : jsTrim input.bag ≠ [])
    (hcontent : jsTrim input.content ≠ [])
    (hkind : input.kind ∈ SUPPORTED_KINDS)
    (p : BagPolicy) (hpol : getBagPolicy db.bags (jsTrim input.bag) = some p)
    (hallowed : p.allowedKinds = [] ∨ input.kind ∈ p.allowedKinds)
    (hfreshm : db.memories.any (fun m => decide (m.id = newId)) = false)
    (hfreshv : db.vectors.any (fun v => decide (v.memoryId = newId)) = false) :
    ∃ rec db', storeMemory db input embedding now newId = .ok (rec, db') ∧
      getMemoryRecord db' newId = some rec ∧
      rec.id = newId ∧
      rec.bag = jsTrim input.bag ∧
      rec.kind = input.kind ∧
      rec.content = jsTrim input.content ∧
      rec.tags = ((input.tags.getD []).map jsTrim).filter (fun t => decide (t ≠ [])) ∧
      rec.importance = max 1 (min 5 (input.importance.getD 3)) := by
  have hresolved : ∀ db2 : Db, db2.memories = db.memories ++
      [{ id := newId, bag := jsTrim input.bag, kind := input.kind,
         content := jsTrim input.content,
         tags := ((input.tags.getD []).map jsTrim).filter (fun t => decide (t ≠ [])),
         importance := max 1 (min 5 (input.importance.getD 3)),
         source := input.source.getD [], createdAt := now, updatedAt := now,
         lastAccessedAt := none, expiresAt := input.expiresAt.join }] →
      getMemoryRecord db2 newId = some
        { id := newId, bag := jsTrim input.bag, kind := input.kind,
          content := jsTrim input.content,
          tags := ((input.tags.getD []).map jsTrim).filter (fun t => decide (t ≠ [])),
          importance := max 1 (min 5 (input.importance.getD 3)),
          source := input.source.getD [], createdAt := now, updatedAt := now,
          lastAccessedAt := none, expiresAt := input.expiresAt.join } := by
    intro db2 hdb2
    unfold getMemoryRecord
    rw [hdb2, List.find?_append,
      find?_eq_none_of_any_false db.memories (fun m => decide (m.id = newId)) hfreshm]
    simp
  have hmain : storeMemory db input embedding now newId =
      .ok (⟨newId, jsTrim input.bag, input.kind, jsTrim input.content,
          ((input.tags.getD []).map jsTrim).filter (fun t => decide (t ≠ [])),
          max 1 (min 5 (input.importance.getD 3)), input.source.getD [], now, now, none,
          input.expiresAt.join⟩,
        ⟨db.bags,
          db.memories ++ [⟨newId, jsTrim input.bag, input.kind, jsTrim input.content,
            ((input.tags.getD []).map jsTrim).filter (fun t => decide (t ≠ [])),
            max 1 (min 5 (input.importance.getD 3)), input.source.getD [], now, now, none,
            input.expiresAt.join⟩],
          db.vectors ++ [⟨newId, embedding, embeddingModelName, embedding.length,
            vectorNorm embedding, now, now⟩]⟩) := by
    unfold storeMemory
    simp only [sanitizeInput]
    rw [if_neg hbag, if_neg hcontent, if_neg (by simp [hkind]), hpol]
    simp only []
    rw [if_neg (by rcases hallowed with h | h <;> simp [h]),
      if_neg (by simp [hfreshm]), if_neg (by simp [hfreshv])]
    rw [hresolved _ rfl]
    rfl
  exact ⟨_, _, hmain, hresolved _ rfl, rfl, rfl, rfl, rfl, rfl, rfl⟩

/-- Witness for C1: storing into a one-bag database succeeds and
round-trips the sanitized fields. -/
theorem storeMemory_roundtrip_sanitized_witness :
    ∃ rec db',
      storeMemory
        ⟨[⟨"b".toList, none, 8, 30, 1, [], "t0".toList, "t0".toList⟩], [], []⟩
        ⟨"b".toList, "note".toList, " hi ".toList, some [" a ".toList], some 9, none, none⟩
        [1] "t".toList "m1".toList = .ok (rec, db') ∧
      getMemoryRecord db' "m1".toList = some rec ∧
      rec.id = "m1".toList ∧
      rec.bag = jsTrim "b".toList ∧
      rec.kind = "note".toList ∧
      rec.content = jsTrim " hi ".toList ∧
      rec.tags = (((some [" a ".toList] : Option (List Str)).getD []).map jsTrim).filter
        (fun t => decide (t ≠ [])) ∧
      rec.importance = max 1 (min 5 ((some (9 : ℚ)).getD 3)) :=
  storeMemory_roundtrip_sanitized
    ⟨[⟨"b".toList, none, 8, 30, 1, [], "t0".toList, "t0".toList⟩], [], []⟩
    ⟨"b".toList, "note".toList, " hi ".toList, some [" a ".toList], some 9, none, none⟩
    [1] "t".toList "m1".toList (by decide) (by decide) (by decide)
    (mapBagRow ⟨"b".toList, none, 8, 30, 1, [], "t0".toList, "t0".toList⟩) rfl
    (Or.inl (by decide)) rfl rfl

/-- C1 (counterexample): the stored tags are not deduplicated (a
duplicated input tag is stored twice), and the stored bag is the trimmed
input bag, not the verbatim one. -/
theorem storeMemory_tags_not_deduplicated :
    (storedRecord
        ⟨[⟨"b".toList, none, 8, 30, 1, [], "t0".toList, "t0".toList⟩], [], []⟩
        ⟨" b".toList, "note".toList, "hi".toList, some ["a".toList, "a".toList], none, none,
          none⟩
        [1] "t".toList "m1".toList).map (fun r => r.tags) =
      some ["a".toList, "a".toList] ∧
    ["a".toList, "a".toList] ≠
      dedupFirst ((["a".toList, "a".toList].map jsTrim).filter (fun t => decide (t ≠ []))) ∧
    (storedRecord
        ⟨[⟨"b".toList, none, 8, 30, 1, [], "t0".toList, "t0".toList⟩], [], []⟩
        ⟨" b".toList, "note".toList, "hi".toList, some ["a".toList, "a".toList], none, none,
          none⟩
        [1] "t".toList "m1".toList).map (fun r => r.bag) = some "b".toList ∧
    "b".toList ≠ " b".toList := by
  refine ⟨?_, by decide, ?_, by decide⟩ <;> decide

/-- C9 (confirmed): for an existing memory id, `updateMemory` succeeds
and the returned (re-read) record keeps the stored `id`, `bag`, `kind`,
`createdAt` and `lastAccessedAt` untouched, whatever combination of
`content`, `tags`, `importance`, `source` and `expiresAt` the input
supplies — the row update writes only the other columns. -/
theorem updateMemory_frame (db : Db) (input : UpdateMemoryInput) (emb : List ℚ) (now : Str)
    (old : MemoryRow) (h : getMemoryRecord db input.id = some old) :
    ∃ rec db', updateMemory db input emb now = .ok (rec, db') ∧
      rec.id = old.id ∧ rec.bag = old.bag ∧ rec.kind = old.kind ∧
      rec.createdAt = old.createdAt ∧ rec.lastAccessedAt = old.lastAccessedAt := by
  have hid : old.id = input.id := by
    unfold getMemoryRecord at h
    have := List.find?_some h
    simpa using this
  have hfind : (db.memories.map (fun m =>
      if m.id = input.id then applyMemoryUpdate input old now m else m)).find?
        (fun m => decide (m.id = input.id)) =
      some (applyMemoryUpdate input old now old) := by
    rw [find?_modify db.memories (fun m => m.id = input.id)
      (applyMemoryUpdate input old now) (fun a ha => ha)]
    unfold getMemoryRecord at h
    rw [h]
    rfl
  have hscru : ∀ db2 : Db, db2.memories = db.memories.map (fun m =>
      if m.id = input.id then applyMemoryUpdate input old now m else m) →
      getMemoryRecord db2 input.id = some (applyMemoryUpdate input old now old) := by
    intro db2 hdb2
    unfold getMemoryRecord
    rw [hdb2]
    exact hfind
  unfold updateMemory
  rw [h]
  simp only []
  rw [hscru _ rfl]
  refine ⟨_, _, rfl, ?_, rfl, rfl, rfl, rfl⟩
  rfl

/-- Witness for C9 at a concrete one-row database and an update that
supplies every optional field. -/
theorem updateMemory_frame_witness :
    ∃ rec db',
      updateMemory
        ⟨[⟨"b".toList, none, 8, 30, 1, [], "t0".toList, "t0".toList⟩],
          [⟨"m1".toList, "b".toList, "note".toList, "old".toList, [], 3, [], "t0".toList,
            "t0".toList, none, none⟩],
          [⟨"m1".toList, [1], "nomic-embed-text".toList, 1, vectorNorm [1], "t0".toList,
            "t0".toList⟩]⟩
        ⟨"m1".toList, some "new".toList, some ["x".toList], some 4, some [], some none⟩
        [2] "t1".toList = .ok (rec, db') ∧
      rec.id = "m1".toList ∧ rec.bag = "b".toList ∧ rec.kind = "note".toList ∧
      rec.createdAt = "t0".toList ∧ rec.lastAccessedAt = none :=
  updateMemory_frame
    ⟨[⟨"b".toList, none, 8, 30, 1, [], "t0".toList, "t0".toList⟩],
      [⟨"m1".toList, "b".toList, "note".toList, "old".toList, [], 3, [], "t0".toList,
        "t0".toList, none, none⟩],
      [⟨"m1".toList, [1], "nomic-embed-text".toList, 1, vectorNorm [1], "t0".toList,
        "t0".toList⟩]⟩
    ⟨"m1".toList, some "new".toList, some ["x".toList], some 4, some [], some none⟩
    [2] "t1".toList
    ⟨"m1".toList, "b".toList, "note".toList, "old".toList, [], 3, [], "t0".toList,
      "t0".toList, none, none⟩ rfl

/-- C7 (amended): `deleteBag` raises a validation error for a blank
(empty after trimming) name before any lookup; for a non-blank name it
returns "not deleted" without error when no bag with the *trimmed* name
exists; it fails without mutation when the bag is protected and
`allowSystem` is not set, or when the bag owns memories and `force` is
not set; otherwise it deletes the owned memories (with their vectors)
and the policy in one transaction, reporting the owned-memory count and
leaving zero memories (and no policy) under that name. -/
theorem deleteBag_semantics :
    (∀ db input, jsTrim input.name = [] →
      deleteBag db input = .error "name is required".toList) ∧
    (∀ db input, jsTrim input.name ≠ [] →
      getBagPolicy db.bags (jsTrim input.name) = none →
      deleteBag db input = .ok (⟨false, jsTrim input.name, 0⟩, db)) ∧
    (∀ db input p, jsTrim input.name ≠ [] →
      getBagPolicy db.bags (jsTrim input.name) = some p →
      jsTrim input.name ∈ PROTECTED_BAGS →
      input.allowSystem.getD false = false →
      ∃ e, deleteBag db input = .error e) ∧
    (∀ db input p, jsTrim input.name ≠ [] →
      getBagPolicy db.bags (jsTrim input.name) = some p →
      (jsTrim input.name ∉ PROTECTED_BAGS ∨ input.allowSystem.getD false = true) →
      0 < db.memories.countP (fun m => decide (m.bag = jsTrim input.name)) →
      input.force.getD false = false →
      ∃ e, deleteBag db input = .error e) ∧
    (∀ db input p, jsTrim input.name ≠ [] →
      getBagPolicy db.bags (jsTrim input.name) = some p →
      (jsTrim input.name ∉ PROTECTED_BAGS ∨ input.allowSystem.getD false = true) →
      (db.memories.countP (fun m => decide (m.bag = jsTrim input.name)) = 0 ∨
        input.force.getD false = true) →
      ∃ res db', deleteBag db input = .ok (res, db') ∧
        res.deleted = true ∧
        res.deletedMemories =
          db.memories.countP (fun m => decide (m.bag = jsTrim input.name)) ∧
        db'.memories.countP (fun m => decide (m.bag = jsTrim input.name)) = 0 ∧
        getBagPolicy db'.bags (jsTrim input.name) = none ∧
        (∀ v ∈ db'.vectors, v ∈ db.vectors ∧
          ¬ ∃ m ∈ db.memories, m.id = v.memoryId ∧ m.bag = jsTrim input.name) ∧
        (∀ m ∈ db'.memories, m ∈ db.memories) ∧
        (∀ r ∈ db'.bags, r ∈ db.bags)) := by
  refine ⟨?_, ?_, ?_, ?_, ?_⟩
  · intro db input hname
    simp only [deleteBag]
    rw [if_pos hname]
  · intro db input hname hnone
    simp only [deleteBag]
    rw [if_neg hname, hnone]
  · intro db input p hname hsome hprot hallow
    simp only [deleteBag]
    rw [if_neg hname, hsome]
    simp only []
    rw [if_pos ⟨by simpa using hprot, by simp [hallow]⟩]
    exact ⟨_, rfl⟩
  · intro db input p hname hsome hnp hcount hforce
    simp only [deleteBag]
    rw [if_neg hname, hsome]
    simp only []
    rw [if_neg (by rcases hnp with h | h <;> simp [h]),
      if_pos ⟨hcount, by simp [hforce]⟩]
    exact ⟨_, rfl⟩
  · intro db input p hname hsome hnp hfc
    simp only [deleteBag]
    rw [if_neg hname, hsome]
    simp only []
    rw [if_neg (by rcases hnp with h | h <;> simp [h]),
      if_neg (by rcases hfc with h | h <;> simp [h])]
    have hbagpos : 0 < db.bags.countP (fun r => decide (r.name = jsTrim input.name)) := by
      unfold getBagPolicy at hsome
      cases hf : db.bags.find? (fun r => decide (r.name = jsTrim input.name)) with
      | none => rw [hf] at hsome; cases hsome
      | some r =>
        have hp := List.find?_some hf
        exact List.countP_pos_iff.mpr ⟨r, List.mem_of_find?_eq_some hf, hp⟩
    have hdel : decide (0 < db.bags.countP (fun r => decide (r.name = jsTrim input.name)))
        = true := decide_eq_true hbagpos
    have h3 : (if 0 < db.memories.countP (fun m => decide (m.bag = jsTrim input.name)) then
        db.memories.filter (fun m => decide (m.bag ≠ jsTrim input.name)) else
        db.memories).countP (fun m => decide (m.bag = jsTrim input.name)) = 0 := by
      by_cases hc : 0 < db.memories.countP (fun m => decide (m.bag = jsTrim input.name))
      · rw [if_pos hc, List.countP_eq_zero]
        intro m hm
        have h2 := (List.mem_filter.mp hm).2
        simp only [decide_eq_true_eq] at h2 ⊢
        simpa using h2
      · rw [if_neg hc]
        omega
    have h4 : getBagPolicy (db.bags.filter (fun r => decide (r.name ≠ jsTrim input.name)))
        (jsTrim input.name) = none := by
      rw [getBagPolicy_none_iff]
      intro r hr
      have := (List.mem_filter.mp hr).2
      simpa using this
    have h5 : ∀ v ∈ (if 0 < db.memories.countP (fun m => decide (m.bag = jsTrim input.name))
        then db.vectors.filter (fun v =>
          ¬ db.memories.any (fun m => decide (m.id = v.memoryId ∧ m.bag = jsTrim input.name)))
        else db.vectors), v ∈ db.vectors ∧
        ¬ ∃ m ∈ db.memories, m.id = v.memoryId ∧ m.bag = jsTrim input.name := by
      intro v hv
      by_cases hc : 0 < db.memories.countP (fun m => decide (m.bag = jsTrim input.name))
      · rw [if_pos hc] at hv
        obtain ⟨hv1, hv2⟩ := List.mem_filter.mp hv
        refine ⟨hv1, ?_⟩
        intro hcon
        obtain ⟨m, hm, h1, h2⟩ := hcon
        simp at hv2
        exact hv2 m hm h1 h2
      · rw [if_neg hc] at hv
        have hzero : db.memories.countP (fun m => decide (m.bag = jsTrim input.name)) = 0 := by
          omega
        rw [List.countP_eq_zero] at hzero
        refine ⟨hv, ?_⟩
        intro hcon
        obtain ⟨m, hm, -, h2⟩ := hcon
        have := hzero m hm
        simp [h2] at this
    have h6 : ∀ m ∈ (if 0 < db.memories.countP (fun m => decide (m.bag = jsTrim input.name))
        then db.memories.filter (fun m => decide (m.bag ≠ jsTrim input.name))
        else db.memories), m ∈ db.memories := by
      intro m hm
      by_cases hc : 0 < db.memories.countP (fun m => decide (m.bag = jsTrim input.name))
      · rw [if_pos hc] at hm
        exact (List.mem_filter.mp hm).1
      · rw [if_neg hc] at hm
        exact hm
    have h7 : ∀ r ∈ db.bags.filter (fun r => decide (r.name ≠ jsTrim input.name)),
        r ∈ db.bags := fun r hr => (List.mem_filter.mp hr).1
    exact ⟨_, _, rfl, hdel, rfl, h3, h4, h5, h6, h7⟩

/-- Witness for C7: force-deleting a one-memory bag succeeds and leaves
no memory or policy behind. -/
theorem deleteBag_semantics_witness :
    ∃ res db',
      deleteBag
        ⟨[⟨"b".toList, none, 8, 30, 1, [], "t0".toList, "t0".toList⟩],
          [⟨"m1".toList, "b".toList, "note".toList, "x".toList, [], 3, [], "t0".toList,
            "t0".toList, none, none⟩],
          [⟨"m1".toList, [1], "nomic-embed-text".toList, 1, vectorNorm [1], "t0".toList,
            "t0".toList⟩]⟩
        ⟨"b".toList, some true, none⟩ = .ok (res, db') ∧
      res.deleted = true ∧
      res.deletedMemories =
        (⟨[⟨"b".toList, none, 8, 30, 1, [], "t0".toList, "t0".toList⟩],
          [⟨"m1".toList, "b".toList, "note".toList, "x".toList, [], 3, [], "t0".toList,
            "t0".toList, none, none⟩],
          [⟨"m1".toList, [1], "nomic-embed-text".toList, 1, vectorNorm [1], "t0".toList,
            "t0".toList⟩]⟩ : Db).memories.countP
          (fun m => decide (m.bag = jsTrim "b".toList)) ∧
      db'.memories.countP (fun m => decide (m.bag = jsTrim "b".toList)) = 0 ∧
      getBagPolicy db'.bags (jsTrim "b".toList) = none ∧
      (∀ v ∈ db'.vectors, v ∈ (⟨[⟨"b".toList, none, 8, 30, 1, [], "t0".toList, "t0".toList⟩],
          [⟨"m1".toList, "b".toList, "note".toList, "x".toList, [], 3, [], "t0".toList,
            "t0".toList, none, none⟩],
          [⟨"m1".toList, [1], "nomic-embed-text".toList, 1, vectorNorm [1], "t0".toList,
            "t0".toList⟩]⟩ : Db).vectors ∧
        ¬ ∃ m ∈ (⟨[⟨"b".toList, none, 8, 30, 1, [], "t0".toList, "t0".toList⟩],
          [⟨"m1".toList, "b".toList, "note".toList, "x".toList, [], 3, [], "t0".toList,
            "t0".toList, none, none⟩],
          [⟨"m1".toList, [1], "nomic-embed-text".toList, 1, vectorNorm [1], "t0".toList,
            "t0".toList⟩]⟩ : Db).memories, m.id = v.memoryId ∧ m.bag = jsTrim "b".toList) ∧
      (∀ m ∈ db'.memories, m ∈ (⟨[⟨"b".toList, none, 8, 30, 1, [], "t0".toList, "t0".toList⟩],
          [⟨"m1".toList, "b".toList, "note".toList, "x".toList, [], 3, [], "t0".toList,
            "t0".toList, none, none⟩],
          [⟨"m1".toList, [1], "nomic-embed-text".toList, 1, vectorNorm [1], "t0".toList,
            "t0".toList⟩]⟩ : Db).memories) ∧
      (∀ r ∈ db'.bags, r ∈ [⟨"b".toList, none, 8, 30, 1, [], "t0".toList, "t0".toList⟩]) :=
  deleteBag_semantics.2.2.2.2
    ⟨[⟨"b".toList, none, 8, 30, 1, [], "t0".toList, "t0".toList⟩],
      [⟨"m1".toList, "b".toList, "note".toList, "x".toList, [], 3, [], "t0".toList,
        "t0".toList, none, none⟩],
      [⟨"m1".toList, [1], "nomic-embed-text".toList, 1, vectorNorm [1], "t0".toList,
        "t0".toList⟩]⟩
    ⟨"b".toList, some true, none⟩
    (mapBagRow ⟨"b".toList, none, 8, 30, 1, [], "t0".toList, "t0".toList⟩)
    (by decide) rfl (Or.inl (by decide)) (Or.inr rfl)

/-- C7 (counterexample): a blank name raises "name is required" even
though no bag with that name exists, instead of the claimed error-free
"not deleted" result. -/
theorem deleteBag_blank_name_errors :
    deleteBag ⟨[], [], []⟩ ⟨"".toList, none, none⟩ = .error "name is required".toList ∧
    getBagPolicy ([] : List BagRow) (jsTrim "".toList) = none :=
  ⟨rfl, rfl⟩

/-- Membership in a descending insertion. -/
theorem mem_insertDesc (lt : α → α → Bool) (a x : α) (l : List α) :
    x ∈ insertDesc lt a l ↔ x = a ∨ x ∈ l := by
  induction l with
  | nil => simp [insertDesc]
  | cons b l ih =>
    unfold insertDesc
    by_cases h : lt b a = true
    · rw [if_pos h]
      simp [or_comm, or_assoc, or_left_comm]
    · rw [if_neg h]
      simp [ih, or_comm, or_assoc, or_left_comm]

/-- Membership is preserved by the descending sort. -/
theorem mem_sortDesc (lt : α → α → Bool) (x : α) (l : List α) :
    x ∈ sortDesc lt l ↔ x ∈ l := by
  induction l with
  | nil => simp [sortDesc]
  | cons b l ih =>
    unfold sortDesc at *
    simp only [List.foldr_cons]
    rw [mem_insertDesc]
    simp [ih]

/-- Inserting into a list sorted descending by `key` keeps it sorted. -/
theorem pairwise_insertDesc (key : α → ℚ) (a : α) (l : List α)
    (h : l.Pairwise (fun x y => key y ≤ key x)) :
    (insertDesc (fun x y => decide (key x < key y)) a l).Pairwise
      (fun x y => key y ≤ key x) := by
  induction l with
  | nil => simp [insertDesc]
  | cons b l ih =>
    obtain ⟨hb, hl⟩ := List.pairwise_cons.mp h
    unfold insertDesc
    by_cases hba : decide (key b < key a) = true
    · rw [if_pos hba]
      have hlt : key b < key a := by simpa using hba
      refine List.pairwise_cons.mpr ⟨?_, h⟩
      intro x hx
      rcases List.mem_cons.mp hx with rfl | hx
      · exact le_of_lt hlt
      · exact le_trans (hb x hx) (le_of_lt hlt)
    · rw [if_neg hba]
      have hle : key a ≤ key b := by simpa using hba
      refine List.pairwise_cons.mpr ⟨?_, ih hl⟩
      intro x hx
      rcases (mem_insertDesc _ a x l).mp hx with rfl | hx
      · exact hle
      · exact hb x hx

/-- The descending sort by a rational key is sorted descending. -/
theorem pairwise_sortDesc (key : α → ℚ) (l : List α) :
    (sortDesc (fun x y => decide (key x < key y)) l).Pairwise
      (fun x y => key y ≤ key x) := by
  induction l with
  | nil => simp [sortDesc]
  | cons b l ih =>
    unfold sortDesc at *
    simp only [List.foldr_cons]
    exact pairwise_insertDesc key b _ ih

/-- When every per-row UPDATE succeeds, the mark loop stamps
`lastAccessedAt = now` on exactly the rows whose id appears in the
ranked list, and reports no error. -/
theorem markLoop_all_ok (now : Str) (markOk : Str → Bool) (hmk : ∀ s, markOk s = true) :
    ∀ (l : List RecallResult) (db : Db),
      markLoop db now markOk l =
        ({ db with memories := db.memories.map (fun m =>
            if l.any (fun it => decide (m.id = it.memory.id)) then
              { m with lastAccessedAt := some now } else m) }, none) := by
  intro l
  induction l with
  | nil =>
    intro db
    simp [markLoop]
  | cons it rest ih =>
    intro db
    unfold markLoop
    rw [hmk it.memory.id]
    simp only [if_true]
    rw [ih]
    refine Prod.ext ?_ rfl
    unfold stampLastAccessed
    dsimp only
    rw [List.map_map]
    congr 1
    refine List.map_congr_left ?_
    intro m hm
    simp only [Function.comp_apply, List.any_cons]
    by_cases hid : m.id = it.memory.id
    · rw [if_pos hid]
      by_cases hr : rest.any (fun it2 => decide (m.id = it2.memory.id)) = true
      · simp [hid, hr]
      · simp only [Bool.not_eq_true] at hr
        simp [hid, hr]
    · rw [if_neg hid]
      by_cases hr : rest.any (fun it2 => decide (m.id = it2.memory.id)) = true
      · simp [hid, hr]
      · simp only [Bool.not_eq_true] at hr
        simp [hid, hr]

/-- When the UPDATE fails for some ranked row, the loop throws (the
first failing row aborts it). -/
theorem markLoop_err (now : Str) (markOk : Str → Bool) :
    ∀ (l : List RecallResult), (∃ it ∈ l, markOk it.memory.id = false) →
      ∀ db, ∃ db2, markLoop db now markOk l =
        (db2, some "failed to update last_accessed_at".toList) := by
  intro l
  induction l with
  | nil =>
    rintro ⟨it, hit, -⟩
    cases hit
  | cons a rest ih =>
    rintro ⟨it, hit, hf⟩ db
    unfold markLoop
    by_cases ha : markOk a.memory.id = true
    · rw [ha]
      simp only [if_true]
      rcases List.mem_cons.mp hit with rfl | hit
      · rw [ha] at hf
        cases hf
      · exact ih ⟨it, hit, hf⟩ _
    · have ha' : markOk a.memory.id = false := by simpa using ha
      rw [ha']
      simp only [Bool.false_eq_true, if_false]
      exact ⟨db, rfl⟩

/-- Lemma: when the UPDATE succeeds for the ranked prefix `pre` and then
fails on `it`, the loop stops with exactly the prefix stamped: each
per-row statement autocommits, so the stamps written before the failure
survive — nothing is rolled back — and the error propagates. -/
theorem markLoop_prefix_err (now : Str) (markOk : Str → Bool) :
    ∀ (pre : List RecallResult) (it : RecallResult) (rest : List RecallResult) (db : Db),
      (∀ x ∈ pre, markOk x.memory.id = true) →
      markOk it.memory.id = false →
      markLoop db now markOk (pre ++ it :: rest) =
        ({ db with memories := db.memories.map (fun m =>
            if pre.any (fun x => decide (m.id = x.memory.id)) then
              { m with lastAccessedAt := some now } else m) },
          some "failed to update last_accessed_at".toList) := by
  intro pre
  induction pre with
  | nil =>
    intro it rest db hpre hf
    show markLoop db now markOk (it :: rest) = _
    unfold markLoop
    rw [hf]
    simp only [Bool.false_eq_true, if_false]
    simp
  | cons a pre' ih =>
    intro it rest db hpre hf
    have ha : markOk a.memory.id = true := hpre a (List.mem_cons_self _ _)
    show markLoop db now markOk (a :: (pre' ++ it :: rest)) = _
    unfold markLoop
    rw [ha]
    simp only [if_true]
    rw [ih it rest (stampLastAccessed db a.memory.id now)
      (fun x hx => hpre x (List.mem_cons_of_mem _ hx)) hf]
    refine Prod.ext ?_ rfl
    unfold stampLastAccessed
    dsimp only
    rw [List.map_map]
    congr 1
    refine List.map_congr_left ?_
    intro m hm
    simp only [Function.comp_apply, List.any_cons]
    by_cases hid : m.id = a.memory.id
    · rw [if_pos hid]
      by_cases hr : pre'.any (fun x => decide (m.id = x.memory.id)) = true
      · simp [hid, hr]
      · simp only [Bool.not_eq_true] at hr
        simp [hid, hr]
    · rw [if_neg hid]
      by_cases hr : pre'.any (fun x => decide (m.id = x.memory.id)) = true
      · simp [hid, hr]
      · simp only [Bool.not_eq_true] at hr
        simp [hid, hr]

/-- C2 (amended): when every per-row timestamp UPDATE succeeds,
`recallMemories` returns the ranked list and sets `lastAccessedAt = now`
on exactly the rows whose id is in that list (discarded candidates and
all other rows are untouched, as are the `bags` and `vectors` tables).
When the UPDATE fails on a ranked row `it` after the prefix `pre`
succeeded, the exception propagates — there is no try/catch — and the
call returns the error instead of the computed results, with the final
state stamping exactly the rows of `pre`: the timestamps written before
the failing row are kept, not rolled back, and no other row is touched.
In particular any failing ranked row makes the whole call fail. -/
theorem recallMemories_marks_returned (db : Db) (input : RecallInput)
    (scoring : Candidate → ScoreBreakdown) (defCand : ℚ) (markOk : Str → Bool) (now : Str) :
    (jsTrim input.query ≠ [] → (∀ s, markOk s = true) →
      recallMemories db input scoring defCand markOk now =
        ({ db with memories := db.memories.map (fun m =>
            if (recallRanked db input scoring defCand now).any
                (fun it => decide (m.id = it.memory.id)) then
              { m with lastAccessedAt := some now } else m) },
          .ok (recallRanked db input scoring defCand now))) ∧
    (jsTrim input.query ≠ [] →
      ∀ pre it rest,
        recallRanked db input scoring defCand now = pre ++ it :: rest →
        (∀ x ∈ pre, markOk x.memory.id = true) →
        markOk it.memory.id = false →
        recallMemories db input scoring defCand markOk now =
          ({ db with memories := db.memories.map (fun m =>
              if pre.any (fun x => decide (m.id = x.memory.id)) then
                { m with lastAccessedAt := some now } else m) },
            .error "failed to update last_accessed_at".toList)) ∧
    (jsTrim input.query ≠ [] →
      (∃ it ∈ recallRanked db input scoring defCand now, markOk it.memory.id = false) →
      ∃ db2, recallMemories db input scoring defCand markOk now =
        (db2, .error "failed to update last_accessed_at".toList)) := by
  refine ⟨?_, ?_, ?_⟩
  · intro hq hmk
    unfold recallMemories
    rw [if_neg hq]
    simp only []
    rw [markLoop_all_ok now markOk hmk]
  · intro hq pre it rest hdecomp hpre hf
    unfold recallMemories
    rw [if_neg hq]
    simp only []
    rw [hdecomp, markLoop_prefix_err now markOk pre it rest db hpre hf]
  · intro hq hfail
    unfold recallMemories
    rw [if_neg hq]
    simp only []
    obtain ⟨db2, hml⟩ := markLoop_err now markOk _ hfail db
    rw [hml]
    exact ⟨db2, rfl⟩

/-- Witness for C2: a concrete recall with an always-succeeding mark
stamps the returned row. -/
theorem recallMemories_marks_returned_witness :
    recallMemories
      ⟨[⟨"b".toList, none, 8, 30, 1, [], "t0".toList, "t0".toList⟩],
        [⟨"m1".toList, "b".toList, "note".toList, "x".toList, [], 3, [], "t0".toList,
          "t0".toList, none, none⟩],
        [⟨"m1".toList, [1], "nomic-embed-text".toList, 1, vectorNorm [1], "t0".toList,
          "t0".toList⟩]⟩
      ⟨"q".toList, none, none, none, none, none⟩ (fun _ => ⟨0, 0, 0, 0⟩) 600
      (fun _ => true) "t1".toList =
      (⟨[⟨"b".toList, none, 8, 30, 1, [], "t0".toList, "t0".toList⟩],
        ([⟨"m1".toList, "b".toList, "note".toList, "x".toList, [], 3, [], "t0".toList,
          "t0".toList, none, none⟩] : List MemoryRow).map (fun m =>
            if (recallRanked
                ⟨[⟨"b".toList, none, 8, 30, 1, [], "t0".toList, "t0".toList⟩],
                  [⟨"m1".toList, "b".toList, "note".toList, "x".toList, [], 3, [], "t0".toList,
                    "t0".toList, none, none⟩],
                  [⟨"m1".toList, [1], "nomic-embed-text".toList, 1, vectorNorm [1],
                    "t0".toList, "t0".toList⟩]⟩
                ⟨"q".toList, none, none, none, none, none⟩ (fun _ => ⟨0, 0, 0, 0⟩) 600
                "t1".toList).any (fun it => decide (m.id = it.memory.id)) then
              { m with lastAccessedAt := some "t1".toList } else m),
        [⟨"m1".toList, [1], "nomic-embed-text".toList, 1, vectorNorm [1], "t0".toList,
          "t0".toList⟩]⟩,
      .ok (recallRanked
        ⟨[⟨"b".toList, none, 8, 30, 1, [], "t0".toList, "t0".toList⟩],
          [⟨"m1".toList, "b".toList, "note".toList, "x".toList, [], 3, [], "t0".toList,
            "t0".toList, none, none⟩],
          [⟨"m1".toList, [1], "nomic-embed-text".toList, 1, vectorNorm [1], "t0".toList,
            "t0".toList⟩]⟩
        ⟨"q".toList, none, none, none, none, none⟩ (fun _ => ⟨0, 0, 0, 0⟩) 600
        "t1".toList)) :=
  (recallMemories_marks_returned
    ⟨[⟨"b".toList, none, 8, 30, 1, [], "t0".toList, "t0".toList⟩],
      [⟨"m1".toList, "b".toList, "note".toList, "x".toList, [], 3, [], "t0".toList,
        "t0".toList, none, none⟩],
      [⟨"m1".toList, [1], "nomic-embed-text".toList, 1, vectorNorm [1], "t0".toList,
        "t0".toList⟩]⟩
    ⟨"q".toList, none, none, none, none, none⟩ (fun _ => ⟨0, 0, 0, 0⟩) 600
    (fun _ => true) "t1".toList).1 (by decide) (fun _ => rfl)

/-- C2 (counterexample): the same concrete recall succeeds when every
per-row UPDATE succeeds, but fails outright when the UPDATE on its one
returned row throws — the claim that a failed timestamp update cannot
fail the recall call is false. -/
theorem recallMemories_mark_failure_fails_call :
    exceptIsOk (recallMemories
      ⟨[⟨"b".toList, none, 8, 30, 1, [], "t0".toList, "t0".toList⟩],
        [⟨"m1".toList, "b".toList, "note".toList, "x".toList, [], 3, [], "t0".toList,
          "t0".toList, none, none⟩],
        [⟨"m1".toList, [1], "nomic-embed-text".toList, 1, vectorNorm [1], "t0".toList,
          "t0".toList⟩]⟩
      ⟨"q".toList, none, none, none, none, none⟩ (fun _ => ⟨0, 0, 0, 0⟩) 600
      (fun _ => true) "t1".toList).2 = true ∧
    exceptIsOk (recallMemories
      ⟨[⟨"b".toList, none, 8, 30, 1, [], "t0".toList, "t0".toList⟩],
        [⟨"m1".toList, "b".toList, "note".toList, "x".toList, [], 3, [], "t0".toList,
          "t0".toList, none, none⟩],
        [⟨"m1".toList, [1], "nomic-embed-text".toList, 1, vectorNorm [1], "t0".toList,
          "t0".toList⟩]⟩
      ⟨"q".toList, none, none, none, none, none⟩ (fun _ => ⟨0, 0, 0, 0⟩) 600
      (fun _ => false) "t1".toList).2 = false :=
  ⟨rfl, rfl⟩

/-- C6 (confirmed): when the request supplies (non-empty, parsed) tags,
every candidate without a case-insensitive tag overlap is discarded
before scoring: whatever the per-candidate scores are, the returned list
is exactly the ranked list built from overlap-surviving candidates, so
every returned item overlaps the requested tags, comes from the
candidate set, and the list is ordered by descending combined score. -/
theorem recallMemories_tag_hard_filter (db : Db) (input : RecallInput)
    (scoring : Candidate → ScoreBreakdown) (defCand : ℚ) (markOk : Str → Bool) (now : Str)
    (ranked : List RecallResult)
    (htags : parseTagsOpt input.tags ≠ [])
    (hok : (recallMemories db input scoring defCand markOk now).2 = .ok ranked) :
    ranked = recallRanked db input scoring defCand now ∧
    (∀ it ∈ ranked,
      hasTagOverlap (parseTagsOpt input.tags) (parseTagsList it.memory.tags) = true) ∧
    (∀ it ∈ ranked, ∃ c ∈ recallCandidates db input defCand now, it.memory = c.memory) ∧
    List.Pairwise (fun x y => y.score ≤ x.score) ranked := by
  have hr : ranked = recallRanked db input scoring defCand now := by
    unfold recallMemories at hok
    by_cases hq : jsTrim input.query = []
    · rw [if_pos hq] at hok
      cases hok
    · rw [if_neg hq] at hok
      simp only [] at hok
      rcases hml : markLoop db now markOk (recallRanked db input scoring defCand now)
        with ⟨db2, err⟩
      rw [hml] at hok
      cases err with
      | none =>
        simp only [] at hok
        exact (Except.ok.inj hok).symm
      | some e =>
        simp only [] at hok
        cases hok
  subst hr
  refine ⟨rfl, ?_, ?_, ?_⟩
  · intro it hit
    unfold recallRanked at hit
    have hit2 := List.mem_of_mem_take hit
    rw [mem_sortDesc] at hit2
    obtain ⟨c, hc, rfl⟩ := List.mem_map.mp hit2
    simp only [recallFiltered] at hc
    have h2 := (List.mem_filter.mp hc).2
    have h3 : decide (parseTagsOpt input.tags = []) = true ∨
        hasTagOverlap (parseTagsOpt input.tags) (parseTagsList c.memory.tags) = true := by
      simpa using h2
    rcases h3 with h | h
    · exact absurd (of_decide_eq_true h) htags
    · exact h
  · intro it hit
    unfold recallRanked at hit
    have hit2 := List.mem_of_mem_take hit
    rw [mem_sortDesc] at hit2
    obtain ⟨c, hc, rfl⟩ := List.mem_map.mp hit2
    simp only [recallFiltered] at hc
    exact ⟨c, (List.mem_filter.mp hc).1, rfl⟩
  · unfold recallRanked
    refine List.Pairwise.sublist (List.take_sublist _ _) ?_
    exact pairwise_sortDesc (fun r : RecallResult => r.score) _

/-- Witness for C6: with two stored memories tagged `x` and `y` and a
recall requesting tag `x`, the conclusion holds at the concrete ranked
list. -/
theorem recallMemories_tag_hard_filter_witness :
    recallRanked
        ⟨[⟨"b".toList, none, 8, 30, 1, [], "t0".toList, "t0".toList⟩],
          [⟨"m1".toList, "b".toList, "note".toList, "x1".toList, ["x".toList], 3, [],
            "t0".toList, "t0".toList, none, none⟩,
          ⟨"m2".toList, "b".toList, "fact".toList, "x2".toList, ["y".toList], 3, [],
            "t0".toList, "t0".toList, none, none⟩],
          [⟨"m1".toList, [1], "nomic-embed-text".toList, 1, vectorNorm [1], "t0".toList,
            "t0".toList⟩,
          ⟨"m2".toList, [1], "nomic-embed-text".toList, 1, vectorNorm [1], "t0".toList,
            "t0".toList⟩]⟩
        ⟨"q".toList, none, none, some ["x".toList], none, none⟩ (fun _ => ⟨0, 0, 0, 0⟩)
        600 "t1".toList =
      recallRanked
        ⟨[⟨"b".toList, none, 8, 30, 1, [], "t0".toList, "t0".toList⟩],
          [⟨"m1".toList, "b".toList, "note".toList, "x1".toList, ["x".toList], 3, [],
            "t0".toList, "t0".toList, none, none⟩,
          ⟨"m2".toList, "b".toList, "fact".toList, "x2".toList, ["y".toList], 3, [],
            "t0".toList, "t0".toList, none, none⟩],
          [⟨"m1".toList, [1], "nomic-embed-text".toList, 1, vectorNorm [1], "t0".toList,
            "t0".toList⟩,
          ⟨"m2".toList, [1], "nomic-embed-text".toList, 1, vectorNorm [1], "t0".toList,
            "t0".toList⟩]⟩
        ⟨"q".toList, none, none, some ["x".toList], none, none⟩ (fun _ => ⟨0, 0, 0, 0⟩)
        600 "t1".toList ∧
    (∀ it ∈ recallRanked
        ⟨[⟨"b".toList, none, 8, 30, 1, [], "t0".toList, "t0".toList⟩],
          [⟨"m1".toList, "b".toList, "note".toList, "x1".toList, ["x".toList], 3, [],
            "t0".toList, "t0".toList, none, none⟩,
          ⟨"m2".toList, "b".toList, "fact".toList, "x2".toList, ["y".toList], 3, [],
            "t0".toList, "t0".toList, none, none⟩],
          [⟨"m1".toList, [1], "nomic-embed-text".toList, 1, vectorNorm [1], "t0".toList,
            "t0".toList⟩,
          ⟨"m2".toList, [1], "nomic-embed-text".toList, 1, vectorNorm [1], "t0".toList,
            "t0".toList⟩]⟩
        ⟨"q".toList, none, none, some ["x".toList], none, none⟩ (fun _ => ⟨0, 0, 0, 0⟩)
        600 "t1".toList,
      hasTagOverlap (parseTagsOpt (some ["x".toList]))
        (parseTagsList it.memory.tags) = true) ∧
    (∀ it ∈ recallRanked
        ⟨[⟨"b".toList, none, 8, 30, 1, [], "t0".toList, "t0".toList⟩],
          [⟨"m1".toList, "b".toList, "note".toList, "x1".toList, ["x".toList], 3, [],
            "t0".toList, "t0".toList, none, none⟩,
          ⟨"m2".toList, "b".toList, "fact".toList, "x2".toList, ["y".toList], 3, [],
            "t0".toList, "t0".toList, none, none⟩],
          [⟨"m1".toList, [1], "nomic-embed-text".toList, 1, vectorNorm [1], "t0".toList,
            "t0".toList⟩,
          ⟨"m2".toList, [1], "nomic-embed-text".toList, 1, vectorNorm [1], "t0".toList,
            "t0".toList⟩]⟩
        ⟨"q".toList, none, none, some ["x".toList], none, none⟩ (fun _ => ⟨0, 0, 0, 0⟩)
        600 "t1".toList,
      ∃ c ∈ recallCandidates
        ⟨[⟨"b".toList, none, 8, 30, 1, [], "t0".toList, "t0".toList⟩],
          [⟨"m1".toList, "b".toList, "note".toList, "x1".toList, ["x".toList], 3, [],
            "t0".toList, "t0".toList, none, none⟩,
          ⟨"m2".toList, "b".toList, "fact".toList, "x2".toList, ["y".toList], 3, [],
            "t0".toList, "t0".toList, none, none⟩],
          [⟨"m1".toList, [1], "nomic-embed-text".toList, 1, vectorNorm [1], "t0".toList,
            "t0".toList⟩,
          ⟨"m2".toList, [1], "nomic-embed-text".toList, 1, vectorNorm [1], "t0".toList,
            "t0".toList⟩]⟩
        ⟨"q".toList, none, none, some ["x".toList], none, none⟩ 600 "t1".toList,
        it.memory = c.memory) ∧
    List.Pairwise (fun x y => y.score ≤ x.score)
      (recallRanked
        ⟨[⟨"b".toList, none, 8, 30, 1, [], "t0".toList, "t0".toList⟩],
          [⟨"m1".toList, "b".toList, "note".toList, "x1".toList, ["x".toList], 3, [],
            "t0".toList, "t0".toList, none, none⟩,
          ⟨"m2".toList, "b".toList, "fact".toList, "x2".toList, ["y".toList], 3, [],
            "t0".toList, "t0".toList, none, none⟩],
          [⟨"m1".toList, [1], "nomic-embed-text".toList, 1, vectorNorm [1], "t0".toList,
            "t0".toList⟩,
          ⟨"m2".toList, [1], "nomic-embed-text".toList, 1, vectorNorm [1], "t0".toList,
            "t0".toList⟩]⟩
        ⟨"q".toList, none, none, some ["x".toList], none, none⟩ (fun _ => ⟨0, 0, 0, 0⟩)
        600 "t1".toList) :=
  recallMemories_tag_hard_filter
    ⟨[⟨"b".toList, none, 8, 30, 1, [], "t0".toList, "t0".toList⟩],
      [⟨"m1".toList, "b".toList, "note".toList, "x1".toList, ["x".toList], 3, [],
        "t0".toList, "t0".toList, none, none⟩,
      ⟨"m2".toList, "b".toList, "fact".toList, "x2".toList, ["y".toList], 3, [],
        "t0".toList, "t0".toList, none, none⟩],
      [⟨"m1".toList, [1], "nomic-embed-text".toList, 1, vectorNorm [1], "t0".toList,
        "t0".toList⟩,
      ⟨"m2".toList, [1], "nomic-embed-text".toList, 1, vectorNorm [1], "t0".toList,
        "t0".toList⟩]⟩
    ⟨"q".toList, none, none, some ["x".toList], none, none⟩ (fun _ => ⟨0, 0, 0, 0⟩)
    600 (fun _ => true) "t1".toList _ (by decide) rfl

end LocalMemory
